import Mathlib

set_option maxRecDepth 100000

/-!
# Verification of the mux stream-orchestrator core

Shallow embedding of the parts of the `mux` repository that the verified
claims are about, together with proofs settling each claim.

Conventions used throughout:

* TypeScript `string | null | undefined` values become `Option String`
  (`none` models `null`/`undefined`; `some ""` models the empty string,
  which is *falsy* in JavaScript — every truthiness test in the source is
  translated explicitly).
* `Record<string, T>` objects (which preserve insertion order) become
  association lists `List (String × T)` or lists of structures carrying a
  `key` field.
* Imported helpers whose defining module is not part of the sources under
  verification are taken as explicit function parameters, so every theorem
  quantifies over their behaviour.
-/

namespace Mux

/-! ## JavaScript string primitives

Lean core's `String.startsWith`/`String.trim` are compiled externs whose
reference implementations do not reduce inside the kernel, so the JS string
operations used by the sources are re-implemented over `List Char`. -/

/-- `startsWithChars s p = true` iff `p` is a prefix of `s`
(char-list core of `String.prototype.startsWith`). -/
def startsWithChars : List Char → List Char → Bool
  | _, [] => true
  | [], _ :: _ => false
  | c :: cs, p :: ps => c = p && startsWithChars cs ps

/-- `String.prototype.startsWith`. -/
def jsStartsWith (s pre : String) : Bool :=
  startsWithChars s.data pre.data

lemma startsWithChars_append (p rest : List Char) :
    startsWithChars (p ++ rest) p = true := by
  induction p with
  | nil => cases rest <;> rfl
  | cons c cs ih => simp [startsWithChars, ih]

lemma jsStartsWith_append (p rest : String) :
    jsStartsWith (p ++ rest) p = true := by
  unfold jsStartsWith
  have : (p ++ rest).data = p.data ++ rest.data := rfl
  rw [this]
  exact startsWithChars_append _ _

lemma jsStartsWith_self (p : String) : jsStartsWith p p = true := by
  have h := jsStartsWith_append p ""
  simpa using h

/-- `String.prototype.trim`: drop leading and trailing whitespace
(JS WhiteSpace/LineTerminator; `Char.isWhitespace` covers the characters
appearing in this development). -/
def jsTrim (s : String) : String :=
  String.mk (((s.data.dropWhile Char.isWhitespace).reverse.dropWhile
    Char.isWhitespace).reverse)

/-- `String.prototype.toLowerCase` (ASCII; non-ASCII characters are
irrelevant here because every non-alphanumeric character is replaced). -/
def jsToLower (s : String) : String :=
  String.mk (s.data.map Char.toLower)

/-! ## Cache-control planner — `src/common/utils/ai/cacheStrategy.ts` -/

/-- A provider message.  `cacheControl` records the presence of
`providerOptions.anthropic.cacheControl` on the message; `role`/`content`
stand for all remaining fields, which the planner never touches. -/
structure ModelMessage where
  role : String
  content : String
  cacheControl : Bool
  deriving DecidableEq

/-- A tool definition entry of the ordered `Record<string, Tool>`.
`key` is the record key; `payload` stands for the tool body
(description, schema, execute), which the planner never touches. -/
structure ToolDef where
  key : String
  payload : String
  cacheControl : Bool
  deriving DecidableEq

/-- `supportsAnthropicCache` from cacheStrategy.ts. -/
def supportsAnthropicCache (modelString : String) : Bool :=
  jsStartsWith modelString "anthropic:"

/-- The object spread `{ ...msg, providerOptions: { anthropic: { cacheControl:
{ type: "ephemeral" } } } }` applied to a message. -/
def addCacheControl (m : ModelMessage) : ModelMessage :=
  { m with cacheControl := true }

/-- The same spread applied to a tool definition. -/
def addToolCacheControl (t : ToolDef) : ToolDef :=
  { t with cacheControl := true }

/-- `Array.prototype.map` with the element index, starting the index count
at `k` (the source always calls it with `k = 0`). -/
def mapEntriesFrom (k : Nat) (f : Nat → α → α) : List α → List α
  | [] => []
  | a :: as => f k a :: mapEntriesFrom (k + 1) f as

/-- `applyCacheControl` from cacheStrategy.ts: for Anthropic models with at
least two messages, mark the second-to-last message; otherwise return the
input list. -/
def applyCacheControl (messages : List ModelMessage) (modelString : String) :
    List ModelMessage :=
  if !supportsAnthropicCache modelString then messages
  else if messages.length < 2 then messages
  else
    let cacheIndex := messages.length - 2
    mapEntriesFrom 0 (fun index msg =>
      if index = cacheIndex then addCacheControl msg else msg) messages

/-- `createCachedSystemMessage` from cacheStrategy.ts: `null` unless the
content is non-empty and the model is Anthropic. -/
def createCachedSystemMessage (systemContent : String) (modelString : String) :
    Option ModelMessage :=
  if systemContent.isEmpty || !supportsAnthropicCache modelString then none
  else some { role := "system", content := systemContent, cacheControl := true }

/-- `applyCacheControlToTools` from cacheStrategy.ts: for Anthropic models,
mark exactly the entries whose key equals the last record key. -/
def applyCacheControlToTools (tools : List ToolDef) (modelString : String) :
    List ToolDef :=
  if !supportsAnthropicCache modelString || tools.isEmpty then tools
  else
    let lastToolKey := (tools.map ToolDef.key).getLast?
    tools.map fun t => if some t.key = lastToolKey then addToolCacheControl t else t

/-- Number of cache breakpoints carried by a message list. -/
def messageBreakpointCount (l : List ModelMessage) : Nat :=
  l.countP fun m => m.cacheControl

/-- Number of cache breakpoints carried by a tool list. -/
def toolBreakpointCount (l : List ToolDef) : Nat :=
  l.countP fun t => t.cacheControl

/-- Number of cache breakpoints carried by an optional system message. -/
def systemBreakpointCount : Option ModelMessage → Nat
  | none => 0
  | some m => if m.cacheControl then 1 else 0

lemma mapEntriesFrom_no_mark (g : α → α) (t : Nat) :
    ∀ (l : List α) (s : Nat), t < s →
      mapEntriesFrom s (fun i a => if i = t then g a else a) l = l
  | [], _, _ => rfl
  | a :: as, s, h => by
    simp only [mapEntriesFrom, if_neg (by omega : ¬ s = t)]
    rw [mapEntriesFrom_no_mark g t as (s + 1) (by omega)]

lemma mapEntriesFrom_mark_single (g : α → α) :
    ∀ (l : List α) (s t : Nat), s ≤ t → t < s + l.length →
      mapEntriesFrom s (fun i a => if i = t then g a else a) l =
        l.take (t - s) ++ (l.drop (t - s)).modifyHead g
  | [], _, _, _, h2 => by simp at h2; omega
  | a :: as, s, t, h1, h2 => by
    by_cases hst : s = t
    · subst hst
      simp only [mapEntriesFrom, Nat.sub_self, List.take_zero,
        List.drop_zero, List.modifyHead_cons, List.nil_append]
      rw [mapEntriesFrom_no_mark g s as (s + 1) (by omega)]
      simp
    · have hlt : s < t := lt_of_le_of_ne h1 hst
      have ih := mapEntriesFrom_mark_single g as (s + 1) t (by omega)
        (by simp only [List.length_cons] at h2; omega)
      simp only [mapEntriesFrom, if_neg (by omega : ¬ s = t), ih]
      have ht : t - s = (t - (s + 1)) + 1 := by omega
      rw [ht]
      simp only [List.take_succ_cons, List.drop_succ_cons, List.cons_append]

lemma map_mark_absent_key (mark : ToolDef → ToolDef) (front : List ToolDef)
    (k : String) (h : k ∉ front.map ToolDef.key) :
    (front.map fun t => if some t.key = some k then mark t else t) = front := by
  have hcong : ∀ t ∈ front,
      (if some t.key = some k then mark t else t) = t := by
    intro t ht
    have : t.key ≠ k := by
      intro hk
      exact h (hk ▸ List.mem_map_of_mem ToolDef.key ht)
    simp [this]
  calc (front.map fun t => if some t.key = some k then mark t else t)
      = front.map id := List.map_congr_left hcong
    _ = front := List.map_id front

lemma applyCacheControlToTools_concat (front : List ToolDef) (lt : ToolDef)
    (modelString : String) (hk : lt.key ∉ front.map ToolDef.key)
    (ha : supportsAnthropicCache modelString = true) :
    applyCacheControlToTools (front ++ [lt]) modelString =
      front ++ [addToolCacheControl lt] := by
  unfold applyCacheControlToTools
  rw [ha]
  simp only [Bool.not_true, Bool.false_or, List.isEmpty_eq_true, List.append_eq_nil,
    List.cons_ne_nil, and_false, if_false, List.map_append, List.map_cons,
    List.map_nil, List.getLast?_concat]
  rw [map_mark_absent_key _ front lt.key hk]
  simp

lemma applyCacheControl_decomp (messages : List ModelMessage) (modelString : String)
    (ha : supportsAnthropicCache modelString = true) (hlen : 2 ≤ messages.length) :
    applyCacheControl messages modelString =
      messages.take (messages.length - 2) ++
        (messages.drop (messages.length - 2)).modifyHead addCacheControl := by
  unfold applyCacheControl
  rw [ha]
  simp only [Bool.not_true, Bool.false_eq_true, if_false]
  rw [if_neg (by omega)]
  have := mapEntriesFrom_mark_single addCacheControl messages 0 (messages.length - 2)
    (Nat.zero_le _) (by omega)
  simpa using this

lemma applyCacheControlToTools_decomp (tools : List ToolDef) (modelString : String)
    (ha : supportsAnthropicCache modelString = true)
    (hkeys : (tools.map ToolDef.key).Nodup) :
    applyCacheControlToTools tools modelString =
      tools.dropLast ++ (tools.getLast?.map addToolCacheControl).toList := by
  rcases (em (tools = [])) with hnil | hne
  · subst hnil
    simp [applyCacheControlToTools]
  · have hsplit : tools.dropLast ++ [tools.getLast hne] = tools :=
      List.dropLast_append_getLast hne
    have hlq : tools.getLast? = some (tools.getLast hne) :=
      List.getLast?_eq_getLast_of_ne_nil hne
    have hk : (tools.getLast hne).key ∉ tools.dropLast.map ToolDef.key := by
      intro hmem
      have : ¬ ((tools.dropLast.map ToolDef.key) ++ [(tools.getLast hne).key]).Nodup := by
        simp only [List.nodup_append, List.nodup_cons, List.not_mem_nil,
          not_false_iff, List.nodup_nil, List.disjoint_singleton]
        intro h
        exact absurd hmem h.2.2
      apply this
      have : tools.map ToolDef.key =
          tools.dropLast.map ToolDef.key ++ [(tools.getLast hne).key] := by
        conv_lhs => rw [← hsplit]
        simp
      exact this ▸ hkeys
    calc applyCacheControlToTools tools modelString
        = applyCacheControlToTools (tools.dropLast ++ [tools.getLast hne]) modelString := by
          rw [hsplit]
      _ = tools.dropLast ++ [addToolCacheControl (tools.getLast hne)] :=
          applyCacheControlToTools_concat _ _ _ hk ha
      _ = tools.dropLast ++ (tools.getLast?.map addToolCacheControl).toList := by
          rw [hlq]
          rfl

/-- **C5.** For providers with the prompt-cache capability (model strings
beginning `anthropic:`) the planner places at most 4 cache breakpoints in
total: one on the system message, one on the last tool definition only
(every other tool definition is returned unchanged), and — when the message
list has at least 2 entries — one on exactly the second-to-last message
(every other message is returned unchanged).  For providers without the
capability, both planner functions return their input unchanged. -/
theorem cache_planner_at_most_four_breakpoints (messages : List ModelMessage)
    (tools : List ToolDef) (modelString sysContent : String)
    (hm : ∀ m ∈ messages, m.cacheControl = false)
    (ht : ∀ t ∈ tools, t.cacheControl = false)
    (hkeys : (tools.map ToolDef.key).Nodup) :
    (supportsAnthropicCache modelString = false →
      applyCacheControl messages modelString = messages ∧
      applyCacheControlToTools tools modelString = tools) ∧
    (supportsAnthropicCache modelString = true →
      messageBreakpointCount (applyCacheControl messages modelString) +
          toolBreakpointCount (applyCacheControlToTools tools modelString) +
          systemBreakpointCount (createCachedSystemMessage sysContent modelString) ≤ 4 ∧
      (messages.length < 2 → applyCacheControl messages modelString = messages) ∧
      (2 ≤ messages.length →
        applyCacheControl messages modelString =
          messages.take (messages.length - 2) ++
            (messages.drop (messages.length - 2)).modifyHead addCacheControl) ∧
      applyCacheControlToTools tools modelString =
        tools.dropLast ++ (tools.getLast?.map addToolCacheControl).toList) := by
  constructor
  · intro hno
    constructor
    · unfold applyCacheControl
      rw [hno]
      simp
    · unfold applyCacheControlToTools
      rw [hno]
      simp
  · intro ha
    have hshort : messages.length < 2 → applyCacheControl messages modelString = messages := by
      intro hlt
      unfold applyCacheControl
      rw [ha]
      simp only [Bool.not_true, Bool.false_eq_true, if_false]
      rw [if_pos hlt]
    have htools := applyCacheControlToTools_decomp tools modelString ha hkeys
    have hmsgcount : messageBreakpointCount (applyCacheControl messages modelString) ≤ 1 := by
      rcases Nat.lt_or_ge messages.length 2 with hlt | hge
      · rw [hshort hlt]
        unfold messageBreakpointCount
        have : messages.countP (fun m => m.cacheControl) = 0 :=
          List.countP_eq_zero.mpr (by intro m hmem; simp [hm m hmem])
        omega
      · rw [applyCacheControl_decomp messages modelString ha hge]
        unfold messageBreakpointCount
        rw [List.countP_append]
        have h1 : (messages.take (messages.length - 2)).countP (fun m => m.cacheControl) = 0 :=
          List.countP_eq_zero.mpr (by
            intro m hmem
            simp [hm m (List.mem_of_mem_take hmem)])
        have h2 : ((messages.drop (messages.length - 2)).modifyHead addCacheControl).countP
            (fun m => m.cacheControl) ≤ 1 := by
          rcases hdrop : messages.drop (messages.length - 2) with _ | ⟨d, ds⟩
          · simp
          · simp only [List.modifyHead_cons, List.countP_cons]
            have : ds.countP (fun m => m.cacheControl) = 0 :=
              List.countP_eq_zero.mpr (by
                intro m hmem
                have : m ∈ messages := List.mem_of_mem_drop (hdrop ▸ List.mem_cons_of_mem d hmem)
                simp [hm m this])
            simp [this, addCacheControl]
        omega
    have htoolcount : toolBreakpointCount (applyCacheControlToTools tools modelString) ≤ 1 := by
      rw [htools]
      unfold toolBreakpointCount
      rw [List.countP_append]
      have h1 : tools.dropLast.countP (fun t => t.cacheControl) = 0 :=
        List.countP_eq_zero.mpr (by
          intro t hmem
          simp [ht t (List.mem_of_mem_dropLast hmem)])
      have h2 : ((tools.getLast?.map addToolCacheControl).toList).countP
          (fun t => t.cacheControl) ≤ 1 := by
        rcases tools.getLast? with _ | lt <;> simp [List.countP_cons, addToolCacheControl]
      omega
    have hsys : systemBreakpointCount (createCachedSystemMessage sysContent modelString) ≤ 1 := by
      unfold createCachedSystemMessage systemBreakpointCount
      rcases em (sysContent.isEmpty = true) with h | h <;> simp [h, ha]
    refine ⟨by omega, hshort, fun hge => applyCacheControl_decomp messages modelString ha hge,
      htools⟩

/-- Closed instance of `cache_planner_at_most_four_breakpoints` evaluated on a
concrete request: three unmarked messages, two tools with distinct keys, an
Anthropic model string, and a non-empty system message. -/
theorem cache_planner_at_most_four_breakpoints_witness :
    applyCacheControl
        [⟨"user", "a", false⟩, ⟨"assistant", "b", false⟩, ⟨"user", "c", false⟩]
        "anthropic:claude-3-5-sonnet" =
      [⟨"user", "a", false⟩, ⟨"assistant", "b", true⟩, ⟨"user", "c", false⟩] ∧
    applyCacheControlToTools
        [⟨"readFile", "r", false⟩, ⟨"writeFile", "w", false⟩]
        "anthropic:claude-3-5-sonnet" =
      [⟨"readFile", "r", false⟩, ⟨"writeFile", "w", true⟩] := by
  have h := cache_planner_at_most_four_breakpoints
    [⟨"user", "a", false⟩, ⟨"assistant", "b", false⟩, ⟨"user", "c", false⟩]
    [⟨"readFile", "r", false⟩, ⟨"writeFile", "w", false⟩]
    "anthropic:claude-3-5-sonnet" "You are a coding agent."
    (by decide) (by decide) (by decide)
  have h2 := (h.2 (by decide))
  refine ⟨?_, ?_⟩
  · have := h2.2.2.1 (by decide)
    rw [this]
    decide
  · have := h2.2.2.2
    rw [this]
    decide

/-! ## Send-message options — §6 of the spec and
`src/node/services/compactionContinueOptions.ts`

`SendMessageOptions` carries the option fields listed by the IPC surface.
Optional fields are `Option`s; the payload types irrelevant to the verified
claims (`toolPolicy` rules, image parts, provider options, mux metadata) are
represented by opaque `String` payloads carried through unchanged. -/

structure SendMessageOptions where
  model : String
  thinkingLevel : Option String
  toolPolicy : Option String
  additionalSystemInstructions : Option String
  mode : Option String
  maxOutputTokens : Option Nat
  editMessageId : Option String
  imageParts : Option String
  muxMetadata : Option String
  providerOptions : Option String
  deriving DecidableEq

/-- `buildContinueMessageOptions` from compactionContinueOptions.ts: the
destructuring `const { muxMetadata, maxOutputTokens, mode, ...rest } = options`
followed by `{ ...rest, model: resumeModel ?? options.model }`. -/
def buildContinueMessageOptions (options : SendMessageOptions)
    (resumeModel : Option String) : SendMessageOptions :=
  { options with
      muxMetadata := none
      maxOutputTokens := none
      mode := none
      model := resumeModel.getD options.model }

/-- **C7.** The options built for the post-compaction follow-up send have
`mode`, `maxOutputTokens` and `muxMetadata` removed, have `model` equal to
`resumeModel` when one is supplied and to the original `options.model`
otherwise, and leave every other field unchanged.  (The embedding is pure, so
the original `options` value is untouched by construction, matching the
source's non-mutating destructuring.) -/
theorem continue_options_strip_compaction_overrides
    (options : SendMessageOptions) (resumeModel : Option String) :
    (buildContinueMessageOptions options resumeModel).mode = none ∧
    (buildContinueMessageOptions options resumeModel).maxOutputTokens = none ∧
    (buildContinueMessageOptions options resumeModel).muxMetadata = none ∧
    (buildContinueMessageOptions options resumeModel).model =
      (match resumeModel with
        | some m => m
        | none => options.model) ∧
    (buildContinueMessageOptions options resumeModel).thinkingLevel =
      options.thinkingLevel ∧
    (buildContinueMessageOptions options resumeModel).toolPolicy =
      options.toolPolicy ∧
    (buildContinueMessageOptions options resumeModel).additionalSystemInstructions =
      options.additionalSystemInstructions ∧
    (buildContinueMessageOptions options resumeModel).editMessageId =
      options.editMessageId ∧
    (buildContinueMessageOptions options resumeModel).imageParts =
      options.imageParts ∧
    (buildContinueMessageOptions options resumeModel).providerOptions =
      options.providerOptions := by
  unfold buildContinueMessageOptions
  rcases resumeModel with _ | m <;> simp [Option.getD]

/-! ## Compaction request preparation —
`src/browser/utils/chatCommands.ts` (`prepareCompactionMessage`)

`resolveCompactionModel` (sticky model preference, module
compactionModelPreference.ts) and `applyCompactionOverrides` (module
compactionOptions.ts) are imported from modules outside the verified
sources, so they are taken as function parameters. -/

/-- `Math.round(t / 1.3)` for a natural `t`.  The exact value is the rational
`10*t/13` and `Math.round x = ⌊x + 1/2⌋`, giving `⌊(20*t + 13)/26⌋`.  The
exact rational is never closer than `1/26` to a half-integer (`20*t` never
equals the odd number `13*(2*k+1)`), which dwarfs the double-precision
rounding error of the source's floating-point division for every realistic
token count, so this natural-number formula agrees with the source. -/
def jsRoundDiv1p3 (t : Nat) : Nat :=
  (20 * t + 13) / 26

/-- `CompactionRequestData` stored in the user message's mux metadata. -/
structure CompactionRequestData where
  model : Option String
  maxOutputTokens : Option Nat
  continueMessage : Option String
  resumeModel : String
  deriving DecidableEq

/-- `MuxFrontendMetadata` for a compaction request (`mtype` embeds the TS
`type` discriminator field). -/
structure MuxFrontendMetadata where
  mtype : String
  rawCommand : String
  parsed : CompactionRequestData
  deriving DecidableEq

/-- `CompactionOptions` from chatCommands.ts. -/
structure CompactionOptions where
  workspaceId : String
  maxOutputTokens : Option Nat
  continueMessage : Option String
  model : Option String
  sendMessageOptions : SendMessageOptions
  editMessageId : Option String
  deriving DecidableEq

/-- `formatCompactionCommand` from chatCommands.ts (every `if` in the source
tests JS truthiness, hence the explicit zero/empty cases). -/
def formatCompactionCommand (options : CompactionOptions) : String :=
  let cmd := "/compact"
  let cmd := match options.maxOutputTokens with
    | some t => if t ≠ 0 then cmd ++ " -t " ++ toString t else cmd
    | none => cmd
  let cmd := match options.model with
    | some m => if !m.isEmpty then cmd ++ " -m " ++ m else cmd
    | none => cmd
  match options.continueMessage with
  | some c => if !c.isEmpty then cmd ++ "\n" ++ c else cmd
  | none => cmd

/-- The fixed summarization request text parameterized by the word target. -/
def compactionPromptBase (words : Nat) : String :=
  "Summarize this conversation into a compact form for a new Assistant to continue helping the user. Use approximately " ++
    toString words ++ " words."

/-- Result triple of `prepareCompactionMessage`. -/
structure PreparedCompaction where
  messageText : String
  metadata : MuxFrontendMetadata
  sendOptions : SendMessageOptions
  deriving DecidableEq

/-- `prepareCompactionMessage` from chatCommands.ts.  The ternary
`options.maxOutputTokens ? Math.round(options.maxOutputTokens / 1.3) : 2000`
and the `if (options.continueMessage)` guard test JS truthiness, so a present
`0` token count and a present empty continue message take the falsy branch. -/
def prepareCompactionMessage
    (resolveCompactionModel : Option String → Option String)
    (applyCompactionOverrides :
      SendMessageOptions → CompactionRequestData → SendMessageOptions)
    (options : CompactionOptions) : PreparedCompaction :=
  let targetWords : Nat :=
    match options.maxOutputTokens with
    | some t => if t ≠ 0 then jsRoundDiv1p3 t else 2000
    | none => 2000
  let messageText := compactionPromptBase targetWords
  let messageText :=
    match options.continueMessage with
    | some c =>
        if !c.isEmpty then
          messageText ++ "\n\nThe user wants to continue with: " ++ c
        else messageText
    | none => messageText
  let effectiveModel := resolveCompactionModel options.model
  let compactData : CompactionRequestData :=
    { model := effectiveModel
      maxOutputTokens := options.maxOutputTokens
      continueMessage := options.continueMessage
      resumeModel := options.sendMessageOptions.model }
  let metadata : MuxFrontendMetadata :=
    { mtype := "compaction-request"
      rawCommand := formatCompactionCommand options
      parsed := compactData }
  { messageText := messageText
    metadata := metadata
    sendOptions := applyCompactionOverrides options.sendMessageOptions compactData }

/-- The prompt that claim C8 describes, read literally: for a compaction
request with `maxOutputTokens` set to `t`, the text asks for approximately
`round(t / 1.3)` words, and a continuity instruction is appended whenever a
`continueMessage` is supplied. -/
def claimedCompactionPrompt (t : Nat) (continueMessage : Option String) : String :=
  let base := compactionPromptBase (jsRoundDiv1p3 t)
  match continueMessage with
  | some c => base ++ "\n\nThe user wants to continue with: " ++ c
  | none => base

/-- A fully-populated `SendMessageOptions` value used by concrete instances. -/
def sampleSendOptions : SendMessageOptions :=
  { model := "anthropic:claude-3-5-sonnet"
    thinkingLevel := some "medium"
    toolPolicy := none
    additionalSystemInstructions := none
    mode := none
    maxOutputTokens := none
    editMessageId := none
    imageParts := none
    muxMetadata := none
    providerOptions := none }

/-- **C8, counterexample.** With `maxOutputTokens` set to `0` (a set value the
claim quantifies over), the source's JS-truthiness test takes the 2000-word
default instead of `round(0 / 1.3) = 0`, and a supplied empty continue message
adds no continuity instruction, so the prepared prompt differs from the
claimed one. -/
theorem compaction_prompt_words_cex :
    (prepareCompactionMessage (fun m => m) (fun s _ => s)
        { workspaceId := "ws"
          maxOutputTokens := some 0
          continueMessage := some ""
          model := none
          sendMessageOptions := sampleSendOptions
          editMessageId := none }).messageText ≠
      claimedCompactionPrompt 0 (some "") := by
  decide

/-- The prompt of claim C8 as amended: the word target `round(t / 1.3)`
applies to a *nonzero* `maxOutputTokens`, and the continuity instruction is
appended exactly when a *non-empty* `continueMessage` is supplied. -/
def amendedCompactionPrompt (t : Nat) (continueMessage : Option String) : String :=
  let base := compactionPromptBase (jsRoundDiv1p3 t)
  match continueMessage with
  | some c =>
      if c.isEmpty then base
      else base ++ "\n\nThe user wants to continue with: " ++ c
  | none => base

/-- **C8 (amended).** For every compaction request whose `maxOutputTokens` is
set to a nonzero value, the prepared summarization prompt targets
`round(maxOutputTokens / 1.3)` words, and it instructs continuity with the
continue message exactly when a non-empty one is supplied. -/
theorem compaction_prompt_words (resolveCompactionModel : Option String → Option String)
    (applyCompactionOverrides :
      SendMessageOptions → CompactionRequestData → SendMessageOptions)
    (options : CompactionOptions) (t : Nat)
    (hmax : options.maxOutputTokens = some t) (ht : t ≠ 0) :
    (prepareCompactionMessage resolveCompactionModel applyCompactionOverrides
        options).messageText =
      amendedCompactionPrompt t options.continueMessage := by
  unfold prepareCompactionMessage amendedCompactionPrompt
  rw [hmax]
  simp only [if_pos ht]
  rcases options.continueMessage with _ | c
  · rfl
  · rcases em (c.isEmpty = true) with h | h <;> simp [h]

/-- Closed instance of `compaction_prompt_words`: `/compact -t 2000 -c keep
going` yields a prompt asking for approximately `round(2000 / 1.3) = 1538`
words followed by the continuity instruction. -/
theorem compaction_prompt_words_witness :
    (prepareCompactionMessage (fun m => m) (fun s _ => s)
        { workspaceId := "ws"
          maxOutputTokens := some 2000
          continueMessage := some "keep going"
          model := none
          sendMessageOptions := sampleSendOptions
          editMessageId := none }).messageText =
      compactionPromptBase 1538 ++ "\n\nThe user wants to continue with: keep going" := by
  have h := compaction_prompt_words (fun m => m) (fun s _ => s)
    { workspaceId := "ws"
      maxOutputTokens := some 2000
      continueMessage := some "keep going"
      model := none
      sendMessageOptions := sampleSendOptions
      editMessageId := none } 2000 rfl (by decide)
  rw [h]
  decide

/-- **C10.** When a compaction request carries no `maxOutputTokens`, the
prepared summarization prompt targets the default of 2000 words, and the
compaction-request metadata records `maxOutputTokens` as `undefined`. -/
theorem compaction_prompt_default_target (resolveCompactionModel : Option String → Option String)
    (applyCompactionOverrides :
      SendMessageOptions → CompactionRequestData → SendMessageOptions)
    (options : CompactionOptions)
    (hmax : options.maxOutputTokens = none) :
    jsStartsWith
        (prepareCompactionMessage resolveCompactionModel applyCompactionOverrides
          options).messageText
        (compactionPromptBase 2000) = true ∧
    (prepareCompactionMessage resolveCompactionModel applyCompactionOverrides
        options).metadata.parsed.maxOutputTokens = none := by
  constructor
  · unfold prepareCompactionMessage
    rw [hmax]
    simp only
    rcases options.continueMessage with _ | c
    · exact jsStartsWith_self _
    · rcases em (c.isEmpty = true) with h | h
      · simp only [h, Bool.not_true, Bool.false_eq_true, if_false]
        exact jsStartsWith_self _
      · simp only [h, Bool.not_false, if_true]
        rw [String.append_assoc]
        exact jsStartsWith_append _ _
  · unfold prepareCompactionMessage
    rw [hmax]

/-- Closed instance of `compaction_prompt_default_target` on a bare
`/compact` request. -/
theorem compaction_prompt_default_target_witness :
    jsStartsWith
        (prepareCompactionMessage (fun m => m) (fun s _ => s)
          { workspaceId := "ws"
            maxOutputTokens := none
            continueMessage := none
            model := none
            sendMessageOptions := sampleSendOptions
            editMessageId := none }).messageText
        (compactionPromptBase 2000) = true ∧
    (prepareCompactionMessage (fun m => m) (fun s _ => s)
        { workspaceId := "ws"
          maxOutputTokens := none
          continueMessage := none
          model := none
          sendMessageOptions := sampleSendOptions
          editMessageId := none }).metadata.parsed.maxOutputTokens = none :=
  compaction_prompt_default_target (fun m => m) (fun s _ => s) _ rfl

/-! ## Compaction completion and abort —
`src/browser/stores/WorkspaceStore.ts`

`handleCompactionCompletion` / `handleCompactionAbort` consult the
aggregator (`isCompactingStream`, `findCompactionRequestMessage`,
`getCompactionSummary`) — those lookups enter the embedding as input values.
The localStorage cancellation marker is a raw string that may fail to
`JSON.parse`; a stored value is either a parsed record or corrupt data. -/

/-- The cancellation marker held in localStorage under the cancelled-compaction
key: either a JSON record `{compactionRequestId, timestamp}` or unparseable
data (JSON.parse throws, caught by the source). -/
inductive CancelStored where
  | parsed (compactionRequestId : String) (timestamp : Nat)
  | corrupt (raw : String)
  deriving DecidableEq

/-- Observable outcome of `handleCompactionAbort`: its boolean return value,
the localStorage marker afterwards, and the summary passed on to
`performCompaction` (hence to `replaceChatHistory`), if any. -/
structure CompactionAbortResult where
  handled : Bool
  markerAfter : Option CancelStored
  replaceWith : Option String
  deriving DecidableEq

/-- `handleCompactionAbort` from WorkspaceStore.ts.  Inputs: whether the
aborted stream was a compaction stream, the id of the compaction-request user
message (if found), the stored cancellation marker, and the partial summary
text accumulated for the aborted assistant message (`none`/empty are both
falsy in the source's `if (!partialSummary)`). -/
def handleCompactionAbort (isCompacting : Bool) (requestMsgId : Option String)
    (marker : Option CancelStored) (summarySoFar : Option String) :
    CompactionAbortResult :=
  if !isCompacting then ⟨false, marker, none⟩
  else match requestMsgId with
  | none => ⟨false, marker, none⟩
  | some reqId =>
    let proceed : Option CancelStored → CompactionAbortResult := fun m =>
      match summarySoFar with
      | none => ⟨false, m, none⟩
      | some s =>
          if s.isEmpty then ⟨false, m, none⟩
          else ⟨true, m, some (jsTrim s ++ "\n\n[truncated]")⟩
    match marker with
    | some (.parsed id _) =>
        if id = reqId then ⟨false, none, none⟩
        else proceed none
    | some (.corrupt _) => proceed none
    | none => proceed none

/-- Whether the stored marker is a parsed record matching the request id. -/
def markerMatches (marker : Option CancelStored) (reqId : String) : Bool :=
  match marker with
  | some (.parsed id _) => id = reqId
  | _ => false

/-- **C3, counterexample.** The source appends the `[truncated]` sentinel to
the *whitespace-trimmed* partial summary (`partialSummary.trim() +
"\n\n[truncated]"`), so for a partial summary with a trailing space the
replacement differs from appending the sentinel to the partial summary
itself, as the claim states. -/
theorem compaction_abort_truncate_cex :
    (handleCompactionAbort true (some "req-1") none
        (some "Summary of work. ")).replaceWith ≠
      some ("Summary of work. " ++ "\n\n[truncated]") := by
  decide

/-- **C3 (amended).** When a compaction stream terminates with stream-abort:
if a cancellation marker whose `compactionRequestId` equals the
compaction-request message id is present, the store skips compaction and
removes the marker; otherwise, given a non-empty partial summary, it appends
the `"\n\n[truncated]"` sentinel to the *trimmed* partial summary and
performs the history replacement with that truncated summary (also clearing
any stale marker). -/
theorem compaction_abort_semantics (requestMsgId : Option String)
    (marker : Option CancelStored) (summarySoFar : Option String)
    (reqId : String) (hreq : requestMsgId = some reqId) :
    (markerMatches marker reqId = true →
      handleCompactionAbort true requestMsgId marker summarySoFar =
        ⟨false, none, none⟩) ∧
    (markerMatches marker reqId = false →
      ∀ s, summarySoFar = some s → s.isEmpty = false →
        handleCompactionAbort true requestMsgId marker summarySoFar =
          ⟨true, none, some (jsTrim s ++ "\n\n[truncated]")⟩) := by
  subst hreq
  constructor
  · intro hmatch
    rcases marker with _ | ⟨id, ts⟩
    · simp [markerMatches] at hmatch
    case some.parsed =>
      have hid : id = reqId := by
        simpa [markerMatches] using hmatch
      simp [handleCompactionAbort, hid]
    case some.corrupt =>
      simp [markerMatches] at hmatch
  · intro hmatch s hs hsne
    subst hs
    rcases marker with _ | ⟨id, ts⟩
    · simp [handleCompactionAbort, hsne]
    case some.parsed =>
      have hid : ¬ id = reqId := by
        simpa [markerMatches] using hmatch
      simp [handleCompactionAbort, hid, hsne]
    case some.corrupt =>
      simp [handleCompactionAbort, hsne]

/-- Closed instance of `compaction_abort_semantics`: accepting early with no
cancellation marker replaces history with the trimmed summary plus the
`[truncated]` sentinel. -/
theorem compaction_abort_semantics_witness :
    handleCompactionAbort true (some "req-1") none (some "Draft summary") =
      ⟨true, none, some ("Draft summary" ++ "\n\n[truncated]")⟩ := by
  have h := (compaction_abort_semantics (some "req-1") none
    (some "Draft summary") "req-1" rfl).2 (by decide) "Draft summary" rfl (by decide)
  rw [h]
  decide

/-! ### Compaction completion dedup (`processedCompactionRequestIds`) -/

/-- A terminal stream-end event as seen by `handleCompactionCompletion`:
whether the ended stream was a compaction stream, the id of the
compaction-request user message (if found), and the summary text extracted
from the assistant response. -/
structure CompletionEvent where
  isCompacting : Bool
  requestMsgId : Option String
  summary : Option String
  deriving DecidableEq

/-- Observable outcome of `handleCompactionCompletion`: the processed-id set
afterwards, the boolean return value, and whether `performCompaction` (hence
`replaceChatHistory`) was invoked. -/
structure CompletionResult where
  processed : List String
  handled : Bool
  didCompact : Bool
  deriving DecidableEq

/-- `handleCompactionCompletion` from WorkspaceStore.ts, acting on the
`processedCompactionRequestIds` set. -/
def handleCompactionCompletion (processed : List String) (e : CompletionEvent) :
    CompletionResult :=
  if !e.isCompacting then ⟨processed, false, false⟩
  else match e.requestMsgId with
  | none => ⟨processed, false, false⟩
  | some reqId =>
    if processed.contains reqId then ⟨processed, true, false⟩
    else match e.summary with
      | none => ⟨processed, false, false⟩
      | some s =>
          if s.isEmpty then ⟨processed, false, false⟩
          else ⟨reqId :: processed, true, true⟩

/-- Number of compactions performed for request id `reqId` while folding the
event sequence through `handleCompactionCompletion`. -/
def compactionCountFor (reqId : String) (processed : List String) :
    List CompletionEvent → Nat
  | [] => 0
  | e :: es =>
    (if (handleCompactionCompletion processed e).didCompact = true ∧
        e.requestMsgId = some reqId then 1 else 0) +
      compactionCountFor reqId (handleCompactionCompletion processed e).processed es

lemma processed_mono (processed : List String) (e : CompletionEvent)
    (x : String) (hx : x ∈ processed) :
    x ∈ (handleCompactionCompletion processed e).processed := by
  unfold handleCompactionCompletion
  rcases e.isCompacting with _ | _
  · simpa using hx
  · simp only [Bool.not_true, Bool.false_eq_true, if_false]
    rcases e.requestMsgId with _ | reqId
    · simpa using hx
    · simp only
      by_cases h : reqId ∈ processed
      · simpa [h] using hx
      · rcases e.summary with _ | s
        · simpa [h] using hx
        · by_cases hs : s.isEmpty = true <;>
            simp [h, hs, hx, List.mem_cons]

lemma didCompact_false_of_processed (processed : List String) (e : CompletionEvent)
    (reqId : String) (hid : e.requestMsgId = some reqId) (hmem : reqId ∈ processed) :
    (handleCompactionCompletion processed e).didCompact = false := by
  unfold handleCompactionCompletion
  rcases e.isCompacting with _ | _
  · simp
  · simp only [Bool.not_true, Bool.false_eq_true, if_false]
    rw [hid]
    simp [hmem]

lemma count_zero_of_processed (reqId : String) :
    ∀ (evs : List CompletionEvent) (processed : List String),
      reqId ∈ processed → compactionCountFor reqId processed evs = 0
  | [], _, _ => rfl
  | e :: es, processed, hmem => by
    have hstep : ¬ ((handleCompactionCompletion processed e).didCompact = true ∧
        e.requestMsgId = some reqId) := by
      rintro ⟨hdid, hid⟩
      rw [didCompact_false_of_processed processed e reqId hid hmem] at hdid
      exact Bool.false_ne_true hdid
    unfold compactionCountFor
    rw [if_neg hstep]
    have := count_zero_of_processed reqId es
      (handleCompactionCompletion processed e).processed
      (processed_mono processed e reqId hmem)
    omega

lemma mem_processed_of_didCompact (processed : List String) (e : CompletionEvent)
    (reqId : String) (hdid : (handleCompactionCompletion processed e).didCompact = true)
    (hid : e.requestMsgId = some reqId) :
    reqId ∈ (handleCompactionCompletion processed e).processed := by
  unfold handleCompactionCompletion at hdid ⊢
  rcases hc : e.isCompacting with _ | _
  · simp [hc] at hdid
  · simp only [hc, Bool.not_true, Bool.false_eq_true, if_false] at hdid ⊢
    rw [hid] at hdid ⊢
    simp only at hdid ⊢
    by_cases h : reqId ∈ processed
    · simp [h] at hdid ⊢
    · rcases hsum : e.summary with _ | s <;> rw [hsum] at hdid
      · simp [h] at hdid
      · by_cases hs : s.isEmpty = true
        · simp [h, hs] at hdid
        · simp [h, hs, List.mem_cons]

/-- **C4.** Across any sequence of terminal stream-end events, the
history-replacing compaction is applied at most once per compaction-request
message id; once an id is in the processed set, every later terminal event
for it returns `true` (recognized as already handled) without invoking
`replaceChatHistory` again. -/
theorem compaction_applied_at_most_once (evs : List CompletionEvent) (reqId : String) :
    compactionCountFor reqId [] evs ≤ 1 ∧
    (∀ processed, reqId ∈ processed →
      compactionCountFor reqId processed evs = 0) ∧
    (∀ processed (e : CompletionEvent), reqId ∈ processed →
      e.isCompacting = true → e.requestMsgId = some reqId →
      (handleCompactionCompletion processed e).handled = true ∧
      (handleCompactionCompletion processed e).didCompact = false) := by
  refine ⟨?_, fun processed h => count_zero_of_processed reqId evs processed h, ?_⟩
  · have key : ∀ (l : List CompletionEvent) (processed : List String),
        compactionCountFor reqId processed l ≤ 1 := by
      intro l
      induction l with
      | nil => intro processed; simp [compactionCountFor]
      | cons e es ih =>
        intro processed
        unfold compactionCountFor
        rcases em ((handleCompactionCompletion processed e).didCompact = true ∧
            e.requestMsgId = some reqId) with h | h
        · rw [if_pos h]
          have hmem := mem_processed_of_didCompact processed e reqId h.1 h.2
          have := count_zero_of_processed reqId es
            (handleCompactionCompletion processed e).processed hmem
          omega
        · rw [if_neg h]
          have := ih (handleCompactionCompletion processed e).processed
          omega
    exact key evs []
  · intro processed e hmem hc hid
    unfold handleCompactionCompletion
    rw [hc, hid]
    simp [hmem]

/-- Closed instance of `compaction_applied_at_most_once`: two duplicated
terminal events for the same request id perform at most one compaction. -/
theorem compaction_applied_at_most_once_witness :
    compactionCountFor "req-1" []
      [⟨true, some "req-1", some "summary"⟩, ⟨true, some "req-1", some "summary"⟩] ≤ 1 :=
  (compaction_applied_at_most_once
    [⟨true, some "req-1", some "summary"⟩, ⟨true, some "req-1", some "summary"⟩]
    "req-1").1

/-! ## Compaction usage accounting —
`WorkspaceStore.getWorkspaceUsage` / `WorkspaceStore.performCompaction`

`createDisplayUsage` (tokens/displayUsage.ts) converts raw API usage
metadata into a display entry and may reject it; it is not among the
verified sources and enters as the function parameter `convert`. -/

/-- `LanguageModelV2Usage`: raw usage metadata on an assistant message. -/
structure RawUsage where
  inputTokens : Nat
  outputTokens : Nat
  reasoningTokens : Nat
  cachedInputTokens : Nat
  deriving DecidableEq

/-- `ChatUsageDisplay`: a usage entry as kept in `usageHistory`; each field
is the token count of the corresponding component. -/
structure ChatUsageDisplay where
  input : Nat
  cached : Nat
  cacheCreate : Nat
  output : Nat
  reasoning : Nat
  deriving DecidableEq

/-- Component-wise sum of two usage entries. -/
def addUsage (a b : ChatUsageDisplay) : ChatUsageDisplay :=
  ⟨a.input + b.input, a.cached + b.cached, a.cacheCreate + b.cacheCreate,
    a.output + b.output, a.reasoning + b.reasoning⟩

/-- The all-zero usage entry. -/
def zeroUsage : ChatUsageDisplay := ⟨0, 0, 0, 0, 0⟩

/-- Modelled from the spec: `sumUsageHistory` of
`src/common/utils/tokens/usageAggregator.ts` is not among the verified
sources.  The spec calls `historicalUsage` "the summed usage of all messages
that existed at compaction time", so it is the component-wise sum of the
usage entries. -/
def sumUsageHistory (l : List ChatUsageDisplay) : ChatUsageDisplay :=
  l.foldl addUsage zeroUsage

/-- A finalized chat message with the metadata fields consulted by
`getWorkspaceUsage` and produced by `performCompaction`. -/
structure MuxMessage where
  id : String
  role : String
  content : String
  usage : Option RawUsage
  historicalUsage : Option ChatUsageDisplay
  model : Option String
  compacted : Bool
  deriving DecidableEq

/-- `WorkspaceUsageState` of WorkspaceStore.ts. -/
structure WorkspaceUsageState where
  usageHistory : List ChatUsageDisplay
  totalTokens : Nat
  deriving DecidableEq

/-- Token total of one display entry, as summed by `getWorkspaceUsage`. -/
def displayTokens (u : ChatUsageDisplay) : Nat :=
  u.input + u.cached + u.cacheCreate + u.output + u.reasoning

/-- The message loop of `getWorkspaceUsage`: walk the messages in order,
remembering the *last* `historicalUsage` seen on an assistant message
(`cumulativeHistorical`) and appending each assistant message's converted
usage entry to `usageHistory`. -/
def usagePass (convert : RawUsage → String → Option ChatUsageDisplay)
    (currentModel : Option String) :
    List MuxMessage → Option ChatUsageDisplay → List ChatUsageDisplay →
      Option ChatUsageDisplay × List ChatUsageDisplay
  | [], cum, hist => (cum, hist)
  | msg :: rest, cum, hist =>
    if msg.role = "assistant" then
      let cum' := match msg.historicalUsage with
        | some h => some h
        | none => cum
      let hist' := match msg.usage with
        | some u =>
          match convert u (msg.model.getD (currentModel.getD "unknown")) with
          | some d => hist ++ [d]
          | none => hist
        | none => hist
      usagePass convert currentModel rest cum' hist'
    else usagePass convert currentModel rest cum hist

/-- `getWorkspaceUsage` from WorkspaceStore.ts: collect the usage entries of
the assistant messages, prepend the cumulative historical usage when one was
found, and total the token counts. -/
def getWorkspaceUsage (convert : RawUsage → String → Option ChatUsageDisplay)
    (currentModel : Option String) (messages : List MuxMessage) :
    WorkspaceUsageState :=
  let pass := usagePass convert currentModel messages none []
  let usageHistory := match pass.1 with
    | some c => c :: pass.2
    | none => pass.2
  { usageHistory := usageHistory
    totalTokens := usageHistory.foldl (fun sum u => sum + displayTokens u) 0 }

/-- `performCompaction` from WorkspaceStore.ts: build the summary message
passed to `replaceChatHistory`.  `summaryId` stands for the generated
`summary-<timestamp>-<random>` id and `endUsage` for the terminal event's
usage metadata. -/
def performCompaction (convert : RawUsage → String → Option ChatUsageDisplay)
    (currentModel : Option String) (messages : List MuxMessage)
    (summaryId summary : String) (endUsage : Option RawUsage) : MuxMessage :=
  let currentUsage := getWorkspaceUsage convert currentModel messages
  let historicalUsage :=
    if currentUsage.usageHistory.length > 0 then
      some (sumUsageHistory currentUsage.usageHistory)
    else none
  { id := summaryId
    role := "assistant"
    content := summary
    usage := endUsage
    historicalUsage := historicalUsage
    model := currentModel
    compacted := true }

/-- The `historicalUsage` values carried by the assistant messages of the
history, in order (an earlier compaction summary carries one). -/
def carriedHistorical : List MuxMessage → List ChatUsageDisplay
  | [] => []
  | m :: rest =>
    if m.role = "assistant" then
      (match m.historicalUsage with
        | some h => [h]
        | none => []) ++ carriedHistorical rest
    else carriedHistorical rest

/-- The usage entries of the assistant messages of the history, in order,
as converted by `createDisplayUsage`. -/
def assistantUsageEntries (convert : RawUsage → String → Option ChatUsageDisplay)
    (currentModel : Option String) : List MuxMessage → List ChatUsageDisplay
  | [] => []
  | m :: rest =>
    if m.role = "assistant" then
      (match m.usage with
        | some u =>
          match convert u (m.model.getD (currentModel.getD "unknown")) with
          | some d => [d]
          | none => []
        | none => []) ++ assistantUsageEntries convert currentModel rest
    else assistantUsageEntries convert currentModel rest

lemma usagePass_spec (convert : RawUsage → String → Option ChatUsageDisplay)
    (currentModel : Option String) :
    ∀ (messages : List MuxMessage) (cum : Option ChatUsageDisplay)
      (hist : List ChatUsageDisplay),
      usagePass convert currentModel messages cum hist =
        ((carriedHistorical messages).getLast?.or cum,
          hist ++ assistantUsageEntries convert currentModel messages)
  | [], cum, hist => by simp [usagePass, carriedHistorical, assistantUsageEntries]
  | m :: rest, cum, hist => by
    unfold usagePass carriedHistorical assistantUsageEntries
    by_cases hrole : m.role = "assistant"
    · simp only [hrole, if_true, if_pos]
      rw [usagePass_spec convert currentModel rest]
      have hentry :
          (match m.usage with
            | some u =>
              match convert u (m.model.getD (currentModel.getD "unknown")) with
              | some d => hist ++ [d]
              | none => hist
            | none => hist) ++ assistantUsageEntries convert currentModel rest =
          hist ++
            ((match m.usage with
              | some u =>
                match convert u (m.model.getD (currentModel.getD "unknown")) with
                | some d => [d]
                | none => []
              | none => []) ++ assistantUsageEntries convert currentModel rest) := by
        rcases hu : m.usage with _ | u
        · simp
        · rcases hc : convert u (m.model.getD (currentModel.getD "unknown")) with _ | d <;>
            simp [hc]
      rcases hh : m.historicalUsage with _ | h
      · simp only [List.nil_append]
        rw [Prod.mk.injEq]
        exact ⟨rfl, hentry⟩
      · have hlast : (([h] ++ carriedHistorical rest).getLast?).or cum =
            ((carriedHistorical rest).getLast?).or (some h) := by
          rcases hcr : carriedHistorical rest with _ | ⟨x, xs⟩
          · simp
          · obtain ⟨y, hy⟩ : ∃ y, (x :: xs).getLast? = some y :=
              ⟨(x :: xs).getLast (by simp),
                List.getLast?_eq_getLast_of_ne_nil (by simp)⟩
            rw [List.getLast?_append_of_ne_nil [h] (by simp), hy]
            rfl
        rw [Prod.mk.injEq]
        exact ⟨hlast.symm ▸ rfl, hentry⟩
    · simp only [hrole, if_false]
      exact usagePass_spec convert currentModel rest cum hist

/-- **C1.** The summary message that `performCompaction` passes to
`replaceChatHistory` carries `compacted = true` and a `historicalUsage` equal
to the sum of the usage entries of all assistant messages present in history
at compaction time together with the `historicalUsage` carried by an earlier
compaction summary (there is at most one such carrier in a well-formed
history, since compaction replaces all prior history), so no usage is lost
across the rewrite. -/
theorem compaction_preserves_usage
    (convert : RawUsage → String → Option ChatUsageDisplay)
    (currentModel : Option String) (messages : List MuxMessage)
    (summaryId summary : String) (endUsage : Option RawUsage)
    (hcar : (carriedHistorical messages).length ≤ 1)
    (hne : carriedHistorical messages ++
      assistantUsageEntries convert currentModel messages ≠ []) :
    (performCompaction convert currentModel messages summaryId summary
        endUsage).compacted = true ∧
    (performCompaction convert currentModel messages summaryId summary
        endUsage).historicalUsage =
      some (sumUsageHistory (carriedHistorical messages ++
        assistantUsageEntries convert currentModel messages)) := by
  refine ⟨rfl, ?_⟩
  unfold performCompaction getWorkspaceUsage
  rw [usagePass_spec convert currentModel messages none []]
  rcases hcr : carriedHistorical messages with _ | ⟨h, rest⟩
  · rw [hcr] at hne
    simp only [List.nil_append] at hne ⊢
    simp only [Option.or_none, List.getLast?_nil]
    have hlen : 0 < (assistantUsageEntries convert currentModel messages).length :=
      List.length_pos.mpr hne
    rw [if_pos hlen]
  · rw [hcr] at hcar
    have hrest : rest = [] := by
      simp only [List.length_cons] at hcar
      exact List.eq_nil_of_length_eq_zero (by omega)
    subst hrest
    simp only [List.getLast?_singleton, Option.or_some, List.nil_append,
      List.cons_append]
    have hlen : 0 < (h :: (assistantUsageEntries convert currentModel
        messages)).length := by simp
    rw [if_pos hlen]

/-- Closed instance of `compaction_preserves_usage`: a history holding an
earlier compaction summary (carrying historical usage) plus a fresh assistant
message; the new summary's `historicalUsage` is the component-wise total. -/
theorem compaction_preserves_usage_witness :
    (performCompaction
        (fun u _ => some ⟨u.inputTokens, u.cachedInputTokens, 0, u.outputTokens,
          u.reasoningTokens⟩)
        (some "anthropic:claude-3-5-sonnet")
        [⟨"summary-1", "assistant", "old summary", some ⟨7, 3, 1, 2⟩,
            some ⟨40, 10, 5, 20, 15⟩, some "anthropic:claude-3-5-sonnet", true⟩,
          ⟨"user-1", "user", "hi", none, none, none, false⟩,
          ⟨"assistant-1", "assistant", "hello", some ⟨100, 50, 10, 30⟩, none,
            some "anthropic:claude-3-5-sonnet", false⟩]
        "summary-2" "new summary" none).compacted = true ∧
    (performCompaction
        (fun u _ => some ⟨u.inputTokens, u.cachedInputTokens, 0, u.outputTokens,
          u.reasoningTokens⟩)
        (some "anthropic:claude-3-5-sonnet")
        [⟨"summary-1", "assistant", "old summary", some ⟨7, 3, 1, 2⟩,
            some ⟨40, 10, 5, 20, 15⟩, some "anthropic:claude-3-5-sonnet", true⟩,
          ⟨"user-1", "user", "hi", none, none, none, false⟩,
          ⟨"assistant-1", "assistant", "hello", some ⟨100, 50, 10, 30⟩, none,
            some "anthropic:claude-3-5-sonnet", false⟩]
        "summary-2" "new summary" none).historicalUsage =
      some ⟨147, 42, 5, 73, 26⟩ := by
  have h := compaction_preserves_usage
    (fun u _ => some ⟨u.inputTokens, u.cachedInputTokens, 0, u.outputTokens,
      u.reasoningTokens⟩)
    (some "anthropic:claude-3-5-sonnet")
    [⟨"summary-1", "assistant", "old summary", some ⟨7, 3, 1, 2⟩,
        some ⟨40, 10, 5, 20, 15⟩, some "anthropic:claude-3-5-sonnet", true⟩,
      ⟨"user-1", "user", "hi", none, none, none, false⟩,
      ⟨"assistant-1", "assistant", "hello", some ⟨100, 50, 10, 30⟩, none,
        some "anthropic:claude-3-5-sonnet", false⟩]
    "summary-2" "new summary" none (by decide) (by decide)
  refine ⟨h.1, ?_⟩
  rw [h.2]
  decide

/-! ## IPC event buffering — `WorkspaceStore.handleChatMessage` /
`processStreamEvent` / `bufferedEventHandlers`

The aggregator is modelled by the trace of operations applied to it; event
payloads irrelevant to the dispatch are opaque strings. -/

/-- An event delivered on the per-workspace chat channel: the caught-up
marker, an event carrying a `type` field, or a whole message object
(`role`, no `type`). -/
inductive ChatEvent where
  | caughtUp
  | typed (tag : String) (payload : String)
  | muxMsg (m : String)
  deriving DecidableEq

/-- The keys of `bufferedEventHandlers` — exactly the event types that are
buffered during replay. -/
def bufferedEventTypes : List String :=
  ["stream-start", "stream-delta", "stream-end", "stream-abort",
    "tool-call-start", "tool-call-delta", "tool-call-end",
    "reasoning-delta", "reasoning-end",
    "init-start", "init-output", "init-end",
    "queued-message-changed", "restore-to-input"]

/-- `isBufferedEvent` from WorkspaceStore.ts: the event has a `type` field
and that type is a key of the handler map. -/
def isBufferedEvent : ChatEvent → Bool
  | .typed tag _ => bufferedEventTypes.contains tag
  | _ => false

/-- An operation applied to the aggregator (with the store-side bookkeeping
each handler performs). -/
inductive AggOp where
  | loadHistory (msgs : List String) (hasActiveStream : Bool)
  | applyBuffered (tag payload : String)
  | applyStreamError (payload : String)
  | applyDelete (payload : String)
  | applyMessage (m : String)
  deriving DecidableEq

/-- Per-workspace subscription state of the store: the caught-up flag, the
buffered historical messages, the buffered stream events, and the trace of
operations applied to the aggregator. -/
structure WsSubState where
  caughtUp : Bool
  historical : List String
  pendingEvents : List ChatEvent
  agg : List AggOp
  deriving DecidableEq

/-- `pendingEvents.some(e => "type" in e && e.type === "stream-start")`. -/
def hasStreamStart (l : List ChatEvent) : Bool :=
  l.any fun e =>
    match e with
    | .typed tag _ => tag = "stream-start"
    | _ => false

/-- `processStreamEvent` from WorkspaceStore.ts: stream errors and message
deletions first, then the buffered-event handler map, then whole messages
(buffered into `historicalMessages` until caught up), and unknown events are
logged and ignored. -/
def processStreamEvent (st : WsSubState) (e : ChatEvent) : WsSubState :=
  match e with
  | .typed tag payload =>
    if tag = "stream-error" then
      { st with agg := st.agg ++ [.applyStreamError payload] }
    else if tag = "delete-message" then
      { st with agg := st.agg ++ [.applyDelete payload] }
    else if bufferedEventTypes.contains tag then
      { st with agg := st.agg ++ [.applyBuffered tag payload] }
    else st
  | .muxMsg m =>
    if !st.caughtUp then { st with historical := st.historical ++ [m] }
    else { st with agg := st.agg ++ [.applyMessage m] }
  | .caughtUp => st

/-- `handleChatMessage` from WorkspaceStore.ts: on caught-up, load the
buffered historical messages first, then replay the buffered stream events
in arrival order (the caught-up flag is still false during the replay and is
set afterwards); before caught-up, buffered-type events are queued; anything
else goes through `processStreamEvent`. -/
def handleChatMessage (st : WsSubState) (e : ChatEvent) : WsSubState :=
  match e with
  | .caughtUp =>
    let hasActiveStream := hasStreamStart st.pendingEvents
    let st1 :=
      if st.historical.length > 0 then
        { st with
            agg := st.agg ++ [.loadHistory st.historical hasActiveStream]
            historical := [] }
      else st
    let st2 := st.pendingEvents.foldl processStreamEvent st1
    { st2 with pendingEvents := [], caughtUp := true }
  | _ =>
    if !st.caughtUp && isBufferedEvent e then
      { st with pendingEvents := st.pendingEvents ++ [e] }
    else processStreamEvent st e

/-- The fresh subscription state created by `addWorkspace`. -/
def initialWsState : WsSubState := ⟨false, [], [], []⟩

/-- The whole messages of an event sequence, in order. -/
def muxOf : List ChatEvent → List String
  | [] => []
  | .muxMsg m :: rest => m :: muxOf rest
  | _ :: rest => muxOf rest

/-- The aggregator operations that pre-caught-up processing applies
immediately (stream errors and deletions; buffered-type events contribute
nothing because they are queued). -/
def preImmediateOps : List ChatEvent → List AggOp
  | [] => []
  | .typed tag p :: rest =>
    (if bufferedEventTypes.contains tag then []
      else if tag = "stream-error" then [AggOp.applyStreamError p]
      else if tag = "delete-message" then [AggOp.applyDelete p]
      else []) ++ preImmediateOps rest
  | _ :: rest => preImmediateOps rest

/-- The aggregator operations contributed by the buffered-type events of a
sequence, in arrival order. -/
def bufferedOps (evs : List ChatEvent) : List AggOp :=
  evs.filterMap fun e =>
    match e with
    | .typed tag p =>
        if bufferedEventTypes.contains tag then some (.applyBuffered tag p)
        else none
    | _ => none

lemma contains_ne_error {tag : String}
    (h : bufferedEventTypes.contains tag = true) :
    tag ≠ "stream-error" ∧ tag ≠ "delete-message" := by
  constructor <;> intro heq <;> subst heq <;> revert h <;> decide

lemma replay_fold (l : List ChatEvent) :
    ∀ (st : WsSubState), (∀ e ∈ l, isBufferedEvent e = true) →
      l.foldl processStreamEvent st = { st with agg := st.agg ++ bufferedOps l } := by
  induction l with
  | nil => intro st _; simp [bufferedOps]
  | cons e rest ih =>
    intro st hall
    have he : isBufferedEvent e = true := hall e (List.mem_cons_self e rest)
    rcases e with _ | ⟨tag, p⟩ | m
    · simp [isBufferedEvent] at he
    · have hct : bufferedEventTypes.contains tag = true := by
        simpa [isBufferedEvent] using he
      have hmemt : tag ∈ bufferedEventTypes := by simpa using hct
      obtain ⟨h1, h2⟩ := contains_ne_error hct
      have hstep : processStreamEvent st (.typed tag p) =
          { st with agg := st.agg ++ [.applyBuffered tag p] } := by
        simp [processStreamEvent, h1, h2, hmemt]
      rw [List.foldl_cons, hstep,
        ih _ (fun e he' => hall e (List.mem_cons_of_mem _ he'))]
      simp [bufferedOps, hmemt, List.filterMap_cons]
    · simp [isBufferedEvent] at he

lemma pre_fold (pre : List ChatEvent) :
    ∀ (st : WsSubState), st.caughtUp = false → ChatEvent.caughtUp ∉ pre →
      pre.foldl handleChatMessage st =
        { caughtUp := false
          historical := st.historical ++ muxOf pre
          pendingEvents := st.pendingEvents ++ pre.filter isBufferedEvent
          agg := st.agg ++ preImmediateOps pre } := by
  induction pre with
  | nil =>
    intro st hcu _
    simp [muxOf, preImmediateOps]
    rcases st with ⟨cu, h, p, a⟩
    simp at hcu
    simp [hcu]
  | cons e rest ih =>
    intro st hcu hnc
    have hnc' : ChatEvent.caughtUp ∉ rest := fun h => hnc (List.mem_cons_of_mem _ h)
    rcases e with _ | ⟨tag, p⟩ | m
    · exact absurd (List.mem_cons_self _ _) hnc
    · by_cases hmemt : tag ∈ bufferedEventTypes
      · have hstep : handleChatMessage st (.typed tag p) =
            { st with pendingEvents := st.pendingEvents ++ [.typed tag p] } := by
          simp [handleChatMessage, hcu, isBufferedEvent, hmemt]
        rw [List.foldl_cons, hstep, ih _ (by simp [hcu]) hnc']
        simp [muxOf, preImmediateOps, hmemt, List.filter_cons, isBufferedEvent]
      · have hstep : handleChatMessage st (.typed tag p) =
            processStreamEvent st (.typed tag p) := by
          simp [handleChatMessage, hcu, isBufferedEvent, hmemt]
        rw [List.foldl_cons, hstep]
        by_cases he : tag = "stream-error"
        · subst he
          have : processStreamEvent st (.typed "stream-error" p) =
              { st with agg := st.agg ++ [.applyStreamError p] } := by
            simp [processStreamEvent]
          rw [this, ih _ (by simp [hcu]) hnc']
          simp [muxOf, preImmediateOps, List.filter_cons, isBufferedEvent, hmemt]
        · by_cases hd : tag = "delete-message"
          · subst hd
            have : processStreamEvent st (.typed "delete-message" p) =
                { st with agg := st.agg ++ [.applyDelete p] } := by
              simp [processStreamEvent]
            rw [this, ih _ (by simp [hcu]) hnc']
            simp [muxOf, preImmediateOps, List.filter_cons, isBufferedEvent, hmemt]
          · have : processStreamEvent st (.typed tag p) = st := by
              simp [processStreamEvent, he, hd, hmemt]
            rw [this, ih _ hcu hnc']
            simp [muxOf, preImmediateOps, List.filter_cons, isBufferedEvent, he, hd, hmemt]
    · have hstep : handleChatMessage st (.muxMsg m) =
          { st with historical := st.historical ++ [m] } := by
        simp [handleChatMessage, isBufferedEvent, processStreamEvent, hcu]
      rw [List.foldl_cons, hstep, ih _ (by simp [hcu]) hnc']
      simp [muxOf, preImmediateOps, List.filter_cons, isBufferedEvent]

lemma preImmediateOps_no_buffered (pre : List ChatEvent) :
    ∀ op ∈ preImmediateOps pre, ∀ tag p, op ≠ AggOp.applyBuffered tag p := by
  induction pre with
  | nil => intro op hop; simp [preImmediateOps] at hop
  | cons e rest ih =>
    intro op hop tag p
    rcases e with _ | ⟨t, q⟩ | m
    · exact ih op hop tag p
    · simp only [preImmediateOps, List.mem_append] at hop
      rcases hop with hop | hop
      · by_cases hmemt : t ∈ bufferedEventTypes
        · simp [hmemt] at hop
        · by_cases he : t = "stream-error"
          · simp [hmemt, he] at hop
            simp [hop]
          · by_cases hd : t = "delete-message"
            · simp [hmemt, he, hd] at hop
              simp [hop]
            · simp [hmemt, he, hd] at hop
      · exact ih op hop tag p
    · exact ih op hop tag p

/-- **C9.** Buffered-type stream events arriving before the caught-up marker
are queued, not applied (the aggregator trace contains no buffered-event
application before caught-up); on caught-up, the historical messages are
loaded first and then the queued events are applied in their original
arrival order as one batch, after which the queue is empty; once caught up,
a buffered-type event is processed immediately. -/
theorem buffered_events_replayed_in_order (pre : List ChatEvent)
    (hpre : ChatEvent.caughtUp ∉ pre) :
    (pre.foldl handleChatMessage initialWsState).pendingEvents =
      pre.filter isBufferedEvent ∧
    (pre.foldl handleChatMessage initialWsState).agg = preImmediateOps pre ∧
    (∀ op ∈ (pre.foldl handleChatMessage initialWsState).agg,
      ∀ tag p, op ≠ AggOp.applyBuffered tag p) ∧
    (handleChatMessage (pre.foldl handleChatMessage initialWsState) .caughtUp).agg =
      preImmediateOps pre ++
        (if (muxOf pre).length > 0 then
          [AggOp.loadHistory (muxOf pre) (hasStreamStart (pre.filter isBufferedEvent))]
        else []) ++ bufferedOps (pre.filter isBufferedEvent) ∧
    (handleChatMessage (pre.foldl handleChatMessage initialWsState)
      .caughtUp).pendingEvents = [] ∧
    (handleChatMessage (pre.foldl handleChatMessage initialWsState)
      .caughtUp).caughtUp = true ∧
    (∀ (st : WsSubState) (tag p : String), st.caughtUp = true →
      bufferedEventTypes.contains tag = true →
      handleChatMessage st (.typed tag p) =
        { st with agg := st.agg ++ [AggOp.applyBuffered tag p] }) := by
  have hfold : pre.foldl handleChatMessage initialWsState =
      { caughtUp := false
        historical := muxOf pre
        pendingEvents := pre.filter isBufferedEvent
        agg := preImmediateOps pre } := by
    rw [pre_fold pre initialWsState rfl hpre]
    simp [initialWsState]
  have hall : ∀ e ∈ pre.filter isBufferedEvent, isBufferedEvent e = true := by
    intro e he
    exact (List.mem_filter.mp he).2
  refine ⟨by rw [hfold], by rw [hfold], ?_, ?_, ?_, ?_, ?_⟩
  · rw [hfold]
    exact preImmediateOps_no_buffered pre
  · rw [hfold]
    unfold handleChatMessage
    rcases hmux : muxOf pre with _ | ⟨m, ms⟩
    · simp only [List.length_nil, gt_iff_lt, Nat.lt_irrefl, if_false,
        List.nil_append, List.append_nil]
      rw [replay_fold _ _ hall]
    · simp only [List.length_cons, Nat.zero_lt_succ, if_true, List.nil_append]
      rw [replay_fold _ _ hall]
  · rw [hfold]
    unfold handleChatMessage
    simp only
  · rw [hfold]
    unfold handleChatMessage
    simp only
  · intro st tag p hcu hct
    obtain ⟨h1, h2⟩ := contains_ne_error hct
    have hmemt : tag ∈ bufferedEventTypes := by simpa using hct
    simp [handleChatMessage, hcu, processStreamEvent, h1, h2, hmemt]

/-- Closed instance of `buffered_events_replayed_in_order`: a stream-start
and a delta event buffered behind one historical message are applied, after
the history load, in their original order. -/
theorem buffered_events_replayed_in_order_witness :
    (handleChatMessage (List.foldl handleChatMessage initialWsState
        [ChatEvent.typed "stream-start" "s1", ChatEvent.muxMsg "m1",
          ChatEvent.typed "stream-delta" "d1"]) .caughtUp).agg =
      [AggOp.loadHistory ["m1"] true, AggOp.applyBuffered "stream-start" "s1",
        AggOp.applyBuffered "stream-delta" "d1"] := by
  have h := buffered_events_replayed_in_order
    [ChatEvent.typed "stream-start" "s1", ChatEvent.muxMsg "m1",
      ChatEvent.typed "stream-delta" "d1"] (by decide)
  rw [h.2.2.2.1]
  decide

/-! ## System-message builder — `src/node/services/systemMessage.ts`

The markdown helpers (`stripScopedInstructionSections`, `extractModeSection`,
`extractModelSection`, module `src/node/utils/main/markdown.ts`) and the
instruction-file reads are not among the verified sources; the helpers enter
as function parameters (`Option` results model `string | null`), and the
three instruction reads enter as the already-read `Option String` values. -/

/-- `Array.prototype.join(sep)`. -/
def jsJoin (sep : String) : List String → String
  | [] => ""
  | [x] => x
  | x :: y :: rest => x ++ sep ++ jsJoin sep (y :: rest)

/-- The dash-collapsing `.replace` of `sanitizeSectionTag`: every run of
dashes becomes a single dash. -/
def collapseDashes (s : String) : String :=
  String.mk (s.data.foldl
    (fun acc c => if c = '-' ∧ acc.getLast? = some '-' then acc else acc ++ [c]) [])

/-- `sanitizeSectionTag` from systemMessage.ts: lower-case, replace every
character outside `[a-z0-9_-]` by a dash, collapse dash runs, and fall back
when nothing remains. -/
def sanitizeSectionTag (value : Option String) (fallback : String) : String :=
  let lowered := jsToLower (value.getD "")
  let replaced := String.mk (lowered.data.map fun ch =>
    if ('a' ≤ ch ∧ ch ≤ 'z') ∨ ch.isDigit ∨ ch = '_' ∨ ch = '-' then ch else '-')
  let normalized := collapseDashes replaced
  if normalized.length > 0 then normalized else fallback

/-- `buildTaggedSection` from systemMessage.ts (`null` and `""` content both
produce no section). -/
def buildTaggedSection (content : Option String) (rawTagValue : Option String)
    (fallback : String) : String :=
  match content with
  | none => ""
  | some c =>
    if c.isEmpty then ""
    else
      let tag := sanitizeSectionTag rawTagValue fallback
      "\n\n<" ++ tag ++ ">\n" ++ c ++ "\n</" ++ tag ++ ">"

/-- The `PRELUDE` template literal of systemMessage.ts, verbatim. -/
def PRELUDE : String :=
  " \n<prelude>\nYou are a coding agent.\n  \n<markdown>\nYour Assistant messages display in Markdown with extensions for mermaidjs and katex.\n\nWhen creating mermaid diagrams:\n- Avoid side-by-side subgraphs (they display too wide)\n- For comparisons, use separate diagram blocks or single graph with visual separation\n- When using custom fill colors, include contrasting color property (e.g., \"style note fill:#ff6b6b,color:#fff\")\n- Make good use of visual space: e.g. use inline commentary\n- Wrap node labels containing brackets or special characters in quotes (e.g., Display[\"Message[]\"] not Display[Message[]])\n\nUse GitHub-style `<details>/<summary>` tags to create collapsible sections for lengthy content, error traces, or supplementary information. Toggles help keep responses scannable while preserving detail.\n</markdown>\n</prelude>\n"

/-- `buildEnvironmentContext` from systemMessage.ts, verbatim. -/
def buildEnvironmentContext (workspacePath : String) : String :=
  "\n<environment>\nYou are in a git worktree at " ++ workspacePath ++
    "\n\n- This IS a git repository - run git commands directly (no cd needed)\n- Tools run here automatically\n- Do not modify or visit other worktrees (especially the main project) without explicit user intent\n- You are meant to do your work isolated from the user and other agents\n</environment>\n"

/-- The inner `sanitizeScopedInstructions` closure of `buildSystemMessage`:
strip scoped sections and drop null/blank results. -/
def sanitizeScopedInstructions (strip : String → String) (input : Option String) :
    Option String :=
  match input with
  | none => none
  | some s =>
    if s.isEmpty then none
    else
      let stripped := strip s
      if (jsTrim stripped).length > 0 then some stripped else none

/-- The JS expression `instructions && extract(instructions, arg)`: `null`
stays `null`, the empty string short-circuits to itself, otherwise the
extractor's `string | null` result. -/
def jsAndExtract (extract : String → String → Option String)
    (instructions : Option String) (arg : String) : Option String :=
  match instructions with
  | none => none
  | some s => if s.isEmpty then some "" else extract s arg

/-- `buildSystemMessage` from systemMessage.ts.  The thrown errors become
`Except.error`; `metadata` is only consulted for the project-instruction
read, which is already reflected in `projectInstructions`, so the
metadata-presence check is dropped from the embedding. -/
def buildSystemMessage (strip : String → String)
    (extractMode extractModel : String → String → Option String)
    (globalInstructions workspaceInstructions projectInstructions : Option String)
    (workspacePath : String) (mode additionalSystemInstructions modelString : Option String) :
    Except String String :=
  if workspacePath.isEmpty then
    .error "Invalid workspace path: workspacePath is required"
  else
    let contextInstructions := workspaceInstructions.or projectInstructions
    let customInstructionSources :=
      ([sanitizeScopedInstructions strip globalInstructions,
        sanitizeScopedInstructions strip contextInstructions].reduceOption).filter
        fun s => !s.isEmpty
    let customInstructions := jsJoin "\n\n" customInstructionSources
    let modeContent : Option String :=
      match mode with
      | none => none
      | some m =>
        if m.isEmpty then none
        else (jsAndExtract extractMode contextInstructions m).or
          (jsAndExtract extractMode globalInstructions m)
    let modelContent : Option String :=
      match modelString with
      | none => none
      | some ms =>
        if ms.isEmpty then none
        else (jsAndExtract extractModel contextInstructions ms).or
          (jsAndExtract extractModel globalInstructions ms)
    let systemMessage := jsTrim PRELUDE ++ "\n\n" ++ buildEnvironmentContext workspacePath
    let systemMessage :=
      if !customInstructions.isEmpty then
        systemMessage ++ "\n<custom-instructions>\n" ++ customInstructions ++
          "\n</custom-instructions>"
      else systemMessage
    let modeSection := buildTaggedSection modeContent mode "mode"
    let systemMessage :=
      if !modeSection.isEmpty then systemMessage ++ modeSection else systemMessage
    let systemMessage :=
      match modelContent, modelString with
      | some mc, some ms =>
        if !mc.isEmpty && !ms.isEmpty then
          let modelSection := buildTaggedSection (some mc) (some ("model-" ++ ms)) "model"
          if !modelSection.isEmpty then systemMessage ++ modelSection else systemMessage
        else systemMessage
      | _, _ => systemMessage
    let systemMessage :=
      match additionalSystemInstructions with
      | some a =>
        if !a.isEmpty then
          systemMessage ++ "\n\n<additional-instructions>\n" ++ a ++
            "\n</additional-instructions>"
        else systemMessage
      | none => systemMessage
    .ok systemMessage

/-! Claim-side composition, written from the claim's wording: fixed prelude,
environment block, custom-instructions block (global then context, scoped
sections stripped), at most one mode block (context first, global fallback),
at most one model block, additional instructions appended last verbatim. -/

/-- The body of the `<custom-instructions>` block, per the claim: global
instructions followed by context instructions, each with scoped sections
stripped (blank results dropped). -/
def specCustomBody (strip : String → String)
    (globalInstructions contextInstructions : Option String) : String :=
  match sanitizeScopedInstructions strip globalInstructions,
      sanitizeScopedInstructions strip contextInstructions with
  | some gs, some cs => gs ++ "\n\n" ++ cs
  | some gs, none => gs
  | none, some cs => cs
  | none, none => ""

/-- The `<custom-instructions>` block, per the claim (absent when empty). -/
def specCustomBlock (strip : String → String)
    (globalInstructions contextInstructions : Option String) : String :=
  let body := specCustomBody strip globalInstructions contextInstructions
  if body.isEmpty then ""
  else "\n<custom-instructions>\n" ++ body ++ "\n</custom-instructions>"

/-- The at-most-one mode block, per the claim: resolved from context
instructions first, global instructions as fallback. -/
def specModeBlock (extractMode : String → String → Option String)
    (globalInstructions contextInstructions : Option String)
    (mode : Option String) : String :=
  match mode with
  | none => ""
  | some m =>
    if m.isEmpty then ""
    else
      buildTaggedSection
        ((jsAndExtract extractMode contextInstructions m).or
          (jsAndExtract extractMode globalInstructions m)) mode "mode"

/-- The at-most-one model block, per the claim. -/
def specModelBlock (extractModel : String → String → Option String)
    (globalInstructions contextInstructions : Option String)
    (modelString : Option String) : String :=
  match modelString with
  | none => ""
  | some ms =>
    if ms.isEmpty then ""
    else
      match (jsAndExtract extractModel contextInstructions ms).or
          (jsAndExtract extractModel globalInstructions ms) with
      | none => ""
      | some mc => buildTaggedSection (some mc) (some ("model-" ++ ms)) "model"

/-- The trailing `<additional-instructions>` block, per the claim. -/
def specAdditionalBlock (additionalSystemInstructions : Option String) : String :=
  match additionalSystemInstructions with
  | none => ""
  | some a =>
    if a.isEmpty then ""
    else "\n\n<additional-instructions>\n" ++ a ++ "\n</additional-instructions>"

/-- The system message as the claim describes it: the blocks concatenated in
the stated order. -/
def specSystemMessage (strip : String → String)
    (extractMode extractModel : String → String → Option String)
    (globalInstructions workspaceInstructions projectInstructions : Option String)
    (workspacePath : String)
    (mode additionalSystemInstructions modelString : Option String) : String :=
  let contextInstructions := workspaceInstructions.or projectInstructions
  jsTrim PRELUDE ++ "\n\n" ++ buildEnvironmentContext workspacePath ++
    specCustomBlock strip globalInstructions contextInstructions ++
    specModeBlock extractMode globalInstructions contextInstructions mode ++
    specModelBlock extractModel globalInstructions contextInstructions modelString ++
    specAdditionalBlock additionalSystemInstructions

lemma strAppendAssoc : ∀ (a b c : String), a ++ b ++ c = a ++ (b ++ c)
  | ⟨as⟩, ⟨bs⟩, ⟨cs⟩ => congrArg String.mk (List.append_assoc as bs cs)

lemma append_if_nonempty (cond : Bool) (X s : String) :
    (if cond then X ++ s else X) = X ++ (if cond then s else "") := by
  rcases cond with _ | _
  · simp [String.append_empty]
  · simp

lemma sanitize_nonempty (strip : String → String) (i : Option String) (s : String)
    (h : sanitizeScopedInstructions strip i = some s) : s.isEmpty = false := by
  unfold sanitizeScopedInstructions at h
  rcases i with _ | t
  · exact absurd h (by simp)
  · by_cases ht : t.isEmpty = true
    · simp [ht] at h
    · simp only [ht, Bool.false_eq_true, if_false] at h
      by_cases hs : (jsTrim (strip t)).length > 0
      · rw [if_pos hs] at h
        have hst : strip t = s := by simpa using h
        subst hst
        by_cases he : (strip t).isEmpty = true
        · have hempty : strip t = "" := (String.isEmpty_iff _).mp he
          rw [hempty] at hs
          exact absurd hs (by decide)
        · simpa using he
      · rw [if_neg hs] at h
        exact absurd h (by simp)

lemma join_eq_body (strip : String → String) (g c : Option String) :
    jsJoin "\n\n" (([sanitizeScopedInstructions strip g,
      sanitizeScopedInstructions strip c].reduceOption).filter fun s => !s.isEmpty) =
    specCustomBody strip g c := by
  rcases hg : sanitizeScopedInstructions strip g with _ | gs <;>
    rcases hc : sanitizeScopedInstructions strip c with _ | cs
  · simp [specCustomBody, hg, hc, List.reduceOption, jsJoin]
  · have hcs := sanitize_nonempty strip c cs hc
    simp [specCustomBody, hg, hc, List.reduceOption, jsJoin, hcs]
  · have hgs := sanitize_nonempty strip g gs hg
    simp [specCustomBody, hg, hc, List.reduceOption, jsJoin, hgs]
  · have hgs := sanitize_nonempty strip g gs hg
    have hcs := sanitize_nonempty strip c cs hc
    simp [specCustomBody, hg, hc, List.reduceOption, jsJoin, hgs, hcs]

lemma append_section (X s : String) :
    (if (!s.isEmpty) = true then X ++ s else X) = X ++ s := by
  by_cases h : s.isEmpty = true
  · rw [(String.isEmpty_iff s).mp h]
    simp [String.append_empty]
  · simp [h]

lemma custom_append_step (X B : String) :
    (if (!B.isEmpty) = true then
      X ++ "\n<custom-instructions>\n" ++ B ++ "\n</custom-instructions>"
    else X) =
    X ++ (if B.isEmpty = true then ""
      else "\n<custom-instructions>\n" ++ B ++ "\n</custom-instructions>") := by
  by_cases h : B.isEmpty = true
  · simp [h, String.append_empty]
  · simp [h, strAppendAssoc]

lemma additional_append_step (X a : String) :
    (if (!a.isEmpty) = true then
      X ++ "\n\n<additional-instructions>\n" ++ a ++ "\n</additional-instructions>"
    else X) =
    X ++ (if a.isEmpty = true then ""
      else "\n\n<additional-instructions>\n" ++ a ++ "\n</additional-instructions>") := by
  by_cases h : a.isEmpty = true
  · simp [h, String.append_empty]
  · simp [h, strAppendAssoc]

lemma mode_block_eq (extractMode : String → String → Option String)
    (g c : Option String) (mode : Option String) :
    buildTaggedSection
        (match mode with
          | none => none
          | some m =>
            if m.isEmpty then none
            else (jsAndExtract extractMode c m).or (jsAndExtract extractMode g m))
        mode "mode" =
      specModeBlock extractMode g c mode := by
  rcases mode with _ | m
  · rfl
  · by_cases hm : m.isEmpty = true <;> simp [specModeBlock, hm, buildTaggedSection]

/-- **C6.** The produced system message is composed in order: the fixed
prelude, the environment block, then (when non-empty) a
`<custom-instructions>` block whose body is the concatenation of global
instructions followed by context instructions each with scoped sections
stripped, then at most one mode block resolved from context instructions
first and global instructions as fallback, then at most one model block,
then an `<additional-instructions>` block appended last verbatim when
supplied. -/
theorem system_message_composed_in_order (strip : String → String)
    (extractMode extractModel : String → String → Option String)
    (globalInstructions workspaceInstructions projectInstructions : Option String)
    (workspacePath : String)
    (mode additionalSystemInstructions modelString : Option String)
    (hwp : workspacePath.isEmpty = false) :
    buildSystemMessage strip extractMode extractModel globalInstructions
        workspaceInstructions projectInstructions workspacePath mode
        additionalSystemInstructions modelString =
      .ok (specSystemMessage strip extractMode extractModel globalInstructions
        workspaceInstructions projectInstructions workspacePath mode
        additionalSystemInstructions modelString) := by
  simp only [buildSystemMessage, specSystemMessage, hwp, Bool.false_eq_true,
    if_false, Except.ok.injEq, join_eq_body, mode_block_eq]
  rcases additionalSystemInstructions with _ | a <;>
    rcases modelString with _ | m
  · simp only [custom_append_step, additional_append_step]
    simp only [append_section, if_true, if_false, Bool.not_true,
      Bool.not_false, Bool.true_and, Bool.false_and, Bool.false_eq_true]
    simp only [specCustomBlock, specModelBlock, specAdditionalBlock,
      buildTaggedSection, if_true, if_false, Bool.not_true,
      Bool.not_false, Bool.false_eq_true]
    simp only [strAppendAssoc, String.append_empty]
  · by_cases hm : m.isEmpty = true
    · simp only [custom_append_step, additional_append_step]
      simp only [hm, append_section, if_true, if_false, Bool.not_true,
        Bool.not_false, Bool.true_and, Bool.false_and, Bool.false_eq_true]
      simp only [specCustomBlock, specModelBlock, specAdditionalBlock,
        buildTaggedSection, hm, if_true, if_false, Bool.not_true,
        Bool.not_false, Bool.false_eq_true]
      simp only [strAppendAssoc, String.append_empty]
    · rcases hL : (jsAndExtract extractModel
          (workspaceInstructions.or projectInstructions) m).or
          (jsAndExtract extractModel globalInstructions m) with _ | mc
      · simp only [custom_append_step, additional_append_step]
        simp only [hm, hL, append_section, if_true, if_false, Bool.not_true,
          Bool.not_false, Bool.true_and, Bool.false_and, Bool.false_eq_true]
        simp only [specCustomBlock, specModelBlock, specAdditionalBlock,
          buildTaggedSection, hm, hL, if_true, if_false, Bool.not_true,
          Bool.not_false, Bool.false_eq_true]
        simp only [strAppendAssoc, String.append_empty]
      · by_cases hmc : mc.isEmpty = true
        · simp only [custom_append_step, additional_append_step]
          simp only [hm, hL, hmc, append_section, if_true, if_false, Bool.not_true,
            Bool.not_false, Bool.true_and, Bool.false_and, Bool.false_eq_true]
          simp only [specCustomBlock, specModelBlock, specAdditionalBlock,
            buildTaggedSection, hm, hL, hmc, if_true, if_false, Bool.not_true,
            Bool.not_false, Bool.false_eq_true]
          simp only [strAppendAssoc, String.append_empty]
        · simp only [custom_append_step, additional_append_step]
          simp only [hm, hL, hmc, append_section, if_true, if_false, Bool.not_true,
            Bool.not_false, Bool.true_and, Bool.false_and, Bool.false_eq_true]
          simp only [specCustomBlock, specModelBlock, specAdditionalBlock,
            buildTaggedSection, hm, hL, hmc, if_true, if_false, Bool.not_true,
            Bool.not_false, Bool.false_eq_true]
          simp only [strAppendAssoc, String.append_empty]
  · by_cases ha : a.isEmpty = true
    · simp only [custom_append_step, additional_append_step]
      simp only [ha, append_section, if_true, if_false, Bool.not_true,
        Bool.not_false, Bool.true_and, Bool.false_and, Bool.false_eq_true]
      simp only [specCustomBlock, specModelBlock, specAdditionalBlock,
        buildTaggedSection, ha, if_true, if_false, Bool.not_true,
        Bool.not_false, Bool.false_eq_true]
      simp only [strAppendAssoc, String.append_empty]
    · simp only [custom_append_step, additional_append_step]
      simp only [ha, append_section, if_true, if_false, Bool.not_true,
        Bool.not_false, Bool.true_and, Bool.false_and, Bool.false_eq_true]
      simp only [specCustomBlock, specModelBlock, specAdditionalBlock,
        buildTaggedSection, ha, if_true, if_false, Bool.not_true,
        Bool.not_false, Bool.false_eq_true]
      simp only [strAppendAssoc, String.append_empty]
  · by_cases hm : m.isEmpty = true
    · by_cases ha : a.isEmpty = true
      · simp only [custom_append_step, additional_append_step]
        simp only [hm, ha, append_section, if_true, if_false, Bool.not_true,
          Bool.not_false, Bool.true_and, Bool.false_and, Bool.false_eq_true]
        simp only [specCustomBlock, specModelBlock, specAdditionalBlock,
          buildTaggedSection, hm, ha, if_true, if_false, Bool.not_true,
          Bool.not_false, Bool.false_eq_true]
        simp only [strAppendAssoc, String.append_empty]
      · simp only [custom_append_step, additional_append_step]
        simp only [hm, ha, append_section, if_true, if_false, Bool.not_true,
          Bool.not_false, Bool.true_and, Bool.false_and, Bool.false_eq_true]
        simp only [specCustomBlock, specModelBlock, specAdditionalBlock,
          buildTaggedSection, hm, ha, if_true, if_false, Bool.not_true,
          Bool.not_false, Bool.false_eq_true]
        simp only [strAppendAssoc, String.append_empty]
    · rcases hL : (jsAndExtract extractModel
          (workspaceInstructions.or projectInstructions) m).or
          (jsAndExtract extractModel globalInstructions m) with _ | mc
      · by_cases ha : a.isEmpty = true
        · simp only [custom_append_step, additional_append_step]
          simp only [hm, hL, ha, append_section, if_true, if_false, Bool.not_true,
            Bool.not_false, Bool.true_and, Bool.false_and, Bool.false_eq_true]
          simp only [specCustomBlock, specModelBlock, specAdditionalBlock,
            buildTaggedSection, hm, hL, ha, if_true, if_false, Bool.not_true,
            Bool.not_false, Bool.false_eq_true]
          simp only [strAppendAssoc, String.append_empty]
        · simp only [custom_append_step, additional_append_step]
          simp only [hm, hL, ha, append_section, if_true, if_false, Bool.not_true,
            Bool.not_false, Bool.true_and, Bool.false_and, Bool.false_eq_true]
          simp only [specCustomBlock, specModelBlock, specAdditionalBlock,
            buildTaggedSection, hm, hL, ha, if_true, if_false, Bool.not_true,
            Bool.not_false, Bool.false_eq_true]
          simp only [strAppendAssoc, String.append_empty]
      · by_cases hmc : mc.isEmpty = true
        · by_cases ha : a.isEmpty = true
          · simp only [custom_append_step, additional_append_step]
            simp only [hm, hL, hmc, ha, append_section, if_true, if_false, Bool.not_true,
              Bool.not_false, Bool.true_and, Bool.false_and, Bool.false_eq_true]
            simp only [specCustomBlock, specModelBlock, specAdditionalBlock,
              buildTaggedSection, hm, hL, hmc, ha, if_true, if_false, Bool.not_true,
              Bool.not_false, Bool.false_eq_true]
            try simp only [strAppendAssoc, String.append_empty]
          · simp only [custom_append_step, additional_append_step]
            simp only [hm, hL, hmc, ha, append_section, if_true, if_false, Bool.not_true,
              Bool.not_false, Bool.true_and, Bool.false_and, Bool.false_eq_true]
            simp only [specCustomBlock, specModelBlock, specAdditionalBlock,
              buildTaggedSection, hm, hL, hmc, ha, if_true, if_false, Bool.not_true,
              Bool.not_false, Bool.false_eq_true]
            try simp only [strAppendAssoc, String.append_empty]
        · by_cases ha : a.isEmpty = true
          · simp only [custom_append_step, additional_append_step]
            simp only [hm, hL, hmc, ha, append_section, if_true, if_false, Bool.not_true,
              Bool.not_false, Bool.true_and, Bool.false_and, Bool.false_eq_true]
            simp only [specCustomBlock, specModelBlock, specAdditionalBlock,
              buildTaggedSection, hm, hL, hmc, ha, if_true, if_false, Bool.not_true,
              Bool.not_false, Bool.false_eq_true]
            try simp only [strAppendAssoc, String.append_empty]
          · simp only [custom_append_step, additional_append_step]
            simp only [hm, hL, hmc, ha, append_section, if_true, if_false, Bool.not_true,
              Bool.not_false, Bool.true_and, Bool.false_and, Bool.false_eq_true]
            simp only [specCustomBlock, specModelBlock, specAdditionalBlock,
              buildTaggedSection, hm, hL, hmc, ha, if_true, if_false, Bool.not_true,
              Bool.not_false, Bool.false_eq_true]
            try simp only [strAppendAssoc, String.append_empty]

/-- Closed instance of `system_message_composed_in_order` on concrete
instruction sets, mode, model and additional instructions. -/
theorem system_message_composed_in_order_witness :
    buildSystemMessage (fun s => s)
        (fun _ m => if m = "plan" then some "Plan carefully." else none)
        (fun _ ms => if ms = "anthropic:claude-3-5-sonnet" then
          some "Be terse." else none)
        (some "Global rules.") (some "Workspace rules.") none
        "/work/tree" (some "plan") (some "Review notes.")
        (some "anthropic:claude-3-5-sonnet") =
      .ok (specSystemMessage (fun s => s)
        (fun _ m => if m = "plan" then some "Plan carefully." else none)
        (fun _ ms => if ms = "anthropic:claude-3-5-sonnet" then
          some "Be terse." else none)
        (some "Global rules.") (some "Workspace rules.") none
        "/work/tree" (some "plan") (some "Review notes.")
        (some "anthropic:claude-3-5-sonnet")) :=
  system_message_composed_in_order (fun s => s)
    (fun _ m => if m = "plan" then some "Plan carefully." else none)
    (fun _ ms => if ms = "anthropic:claude-3-5-sonnet" then
      some "Be terse." else none)
    (some "Global rules.") (some "Workspace rules.") none
    "/work/tree" (some "plan") (some "Review notes.")
    (some "anthropic:claude-3-5-sonnet") (by decide)

/-! ## Stream Manager concurrency — at most one active stream per workspace

Modelled from the spec: the `StreamManager` implementation
(src/node/services/streamManager.ts) is not among the verified sources —
only its embedded tests are.  Spec §4.7 describes, per workspace, a
state machine `Idle → Starting → Streaming → Finalizing → Idle` with
`Aborting` reachable from `Starting | Streaming` and `Errored` as a
terminal pre-Idle step, and a per-workspace mutex serializing `startStream`:
acquire the mutex, abort a previously active stream and await its
finalization, allocate and start the new stream, release the mutex.  The
model below is an interleaved small-step transition system over one
workspace: `startStream` invocations are identified by `Nat` ids advancing
through a program counter, streams by allocation order; autonomous steps
advance stream lifecycles at any time. -/

/-- Lifecycle state of one stream (spec §4.7). -/
inductive StreamState where
  | unborn
  | starting
  | streaming
  | finalizing
  | aborting
  | errored
  | idle
  deriving DecidableEq

/-- The states the at-most-one-stream invariant counts as active. -/
def StreamState.isActive : StreamState → Bool
  | .starting | .streaming | .finalizing | .aborting => true
  | _ => false

/-- Program counter of one `startStream` invocation. -/
inductive CallPc where
  | notInvoked
  | entry
  | acquired
  | ready
  | created
  | donePc
  deriving DecidableEq

/-- `startStream` positions inside the mutex-protected critical section. -/
def CallPc.inCritical : CallPc → Bool
  | .acquired | .ready | .created => true
  | _ => false

/-- Manager state for one workspace: the mutex holder, each invocation's
program counter, each stream slot's state, and the next stream id. -/
structure ManagerState where
  holder : Option Nat
  callPc : Nat → CallPc
  streamSt : Nat → StreamState
  nextStream : Nat

/-- The fresh manager state. -/
def initManager : ManagerState :=
  { holder := none
    callPc := fun _ => .notInvoked
    streamSt := fun _ => .unborn
    nextStream := 0 }

/-- One interleaved step of the Stream Manager (spec §4.7). -/
inductive Step : ManagerState → ManagerState → Prop where
  | invoke (s : ManagerState) (c : Nat) :
      s.callPc c = .notInvoked →
      Step s { s with callPc := Function.update s.callPc c .entry }
  | acquire (s : ManagerState) (c : Nat) :
      s.callPc c = .entry → s.holder = none →
      Step s { s with
        holder := some c
        callPc := Function.update s.callPc c .acquired }
  | abortPrevious (s : ManagerState) (c n : Nat) :
      s.callPc c = .acquired →
      (s.streamSt n = .starting ∨ s.streamSt n = .streaming) →
      Step s { s with streamSt := Function.update s.streamSt n .aborting }
  | safetyDone (s : ManagerState) (c : Nat) :
      s.callPc c = .acquired → s.holder = some c →
      (∀ n, (s.streamSt n).isActive = false) →
      Step s { s with callPc := Function.update s.callPc c .ready }
  | create (s : ManagerState) (c : Nat) :
      s.callPc c = .ready → s.holder = some c →
      Step s { s with
        callPc := Function.update s.callPc c .created
        streamSt := Function.update s.streamSt s.nextStream .starting
        nextStream := s.nextStream + 1 }
  | release (s : ManagerState) (c : Nat) :
      s.callPc c = .created → s.holder = some c →
      Step s { s with
        holder := none
        callPc := Function.update s.callPc c .donePc }
  | beginStreaming (s : ManagerState) (n : Nat) :
      s.streamSt n = .starting →
      Step s { s with streamSt := Function.update s.streamSt n .streaming }
  | finishStreaming (s : ManagerState) (n : Nat) :
      s.streamSt n = .streaming →
      Step s { s with streamSt := Function.update s.streamSt n .finalizing }
  | finalizeDone (s : ManagerState) (n : Nat) :
      s.streamSt n = .finalizing →
      Step s { s with streamSt := Function.update s.streamSt n .idle }
  | interrupt (s : ManagerState) (n : Nat) :
      (s.streamSt n = .starting ∨ s.streamSt n = .streaming) →
      Step s { s with streamSt := Function.update s.streamSt n .aborting }
  | abortDone (s : ManagerState) (n : Nat) :
      s.streamSt n = .aborting →
      Step s { s with streamSt := Function.update s.streamSt n .idle }
  | errorOut (s : ManagerState) (n : Nat) :
      s.streamSt n = .streaming →
      Step s { s with streamSt := Function.update s.streamSt n .errored }
  | errorSettled (s : ManagerState) (n : Nat) :
      s.streamSt n = .errored →
      Step s { s with streamSt := Function.update s.streamSt n .idle }

/-- States reachable from the fresh manager. -/
def Reachable (s : ManagerState) : Prop :=
  Relation.ReflTransGen Step initManager s

/-- The inductive invariant: at most one active stream, critical-section
occupancy pinned to the mutex holder, and a `ready` caller only when no
stream is active. -/
def Inv (s : ManagerState) : Prop :=
  (∀ n m, (s.streamSt n).isActive = true → (s.streamSt m).isActive = true → n = m) ∧
  (∀ c, (s.callPc c).inCritical = true → s.holder = some c) ∧
  (∀ c, s.callPc c = .ready → ∀ n, (s.streamSt n).isActive = false)

lemma inv_init : Inv initManager := by
  refine ⟨?_, ?_, ?_⟩ <;> intro _ h <;> simp [initManager, StreamState.isActive,
    CallPc.inCritical] at h ⊢

lemma inv_lifecycle {s : ManagerState}
    (hone : ∀ n m, (s.streamSt n).isActive = true →
      (s.streamSt m).isActive = true → n = m)
    (hcrit : ∀ c, (s.callPc c).inCritical = true → s.holder = some c)
    (hready : ∀ c, s.callPc c = .ready → ∀ n, (s.streamSt n).isActive = false)
    (n : Nat) (new : StreamState)
    (hshrink : new.isActive = true → (s.streamSt n).isActive = true)
    (hold_or : (s.streamSt n).isActive = true ∨ new.isActive = false) :
    Inv { s with streamSt := Function.update s.streamSt n new } := by
  refine ⟨?_, hcrit, ?_⟩
  · intro i j hi hj
    try dsimp only at hi hj ⊢
    have hconv : ∀ k, (Function.update s.streamSt n new k).isActive = true →
        (s.streamSt k).isActive = true := by
      intro k hk
      try dsimp only at hk ⊢
      by_cases hkn : k = n
      · subst hkn
        rw [Function.update_same] at hk
        exact hshrink hk
      · rwa [Function.update_noteq hkn] at hk
    exact hone i j (hconv i hi) (hconv j hj)
  · intro d hd k
    try dsimp only at hd ⊢
    have hd2 : s.callPc d = .ready := hd
    by_cases hkn : k = n
    · subst hkn
      show (Function.update s.streamSt k new k).isActive = false
      rw [Function.update_same]
      rcases hold_or with h | h
      · rw [hready d hd2 k] at h
        exact absurd h (by simp)
      · exact h
    · show (Function.update s.streamSt n new k).isActive = false
      rw [Function.update_noteq hkn]
      exact hready d hd2 k

lemma inv_step {s s' : ManagerState} (hs : Inv s) (hstep : Step s s') : Inv s' := by
  obtain ⟨hone, hcrit, hready⟩ := hs
  cases hstep with
  | invoke c hc =>
    refine ⟨hone, ?_, ?_⟩
    · intro d hd
      try dsimp only at hd ⊢
      by_cases hdc : d = c
      · subst hdc
        rw [Function.update_same] at hd
        simp [CallPc.inCritical] at hd
      · rw [Function.update_noteq hdc] at hd
        exact hcrit d hd
    · intro d hd n
      try dsimp only at hd ⊢
      by_cases hdc : d = c
      · subst hdc
        rw [Function.update_same] at hd
        exact absurd hd (by simp)
      · rw [Function.update_noteq hdc] at hd
        exact hready d hd n
  | acquire c hc hnone =>
    refine ⟨hone, ?_, ?_⟩
    · intro d hd
      try dsimp only at hd ⊢
      by_cases hdc : d = c
      · subst hdc; rfl
      · rw [Function.update_noteq hdc] at hd
        have := hcrit d hd
        rw [hnone] at this
        exact absurd this (by simp)
    · intro d hd n
      try dsimp only at hd ⊢
      by_cases hdc : d = c
      · subst hdc
        rw [Function.update_same] at hd
        exact absurd hd (by simp)
      · rw [Function.update_noteq hdc] at hd
        have := hcrit d (by rw [hd]; rfl)
        rw [hnone] at this
        exact absurd this (by simp)
  | abortPrevious c n hc hact =>
    refine ⟨?_, hcrit, ?_⟩
    · intro i j hi hj
      try dsimp only at hi hj ⊢
      have hconv : ∀ k, ((Function.update s.streamSt n .aborting) k).isActive = true →
          (s.streamSt k).isActive = true := by
        intro k hk
        try dsimp only at hk ⊢
        by_cases hkn : k = n
        · subst hkn
          rcases hact with h | h <;> simp [h, StreamState.isActive]
        · rwa [Function.update_noteq hkn] at hk
      exact hone i j (hconv i hi) (hconv j hj)
    · intro d hd
      try dsimp only at hd ⊢
      have := hready d hd n
      rcases hact with h | h <;> rw [h] at this <;>
        simp [StreamState.isActive] at this
  | safetyDone c hc hhold hnoact =>
    refine ⟨hone, ?_, ?_⟩
    · intro d hd
      try dsimp only at hd ⊢
      by_cases hdc : d = c
      · subst hdc; exact hhold
      · rw [Function.update_noteq hdc] at hd
        exact hcrit d hd
    · intro d hd n
      try dsimp only at hd ⊢
      by_cases hdc : d = c
      · exact hnoact n
      · rw [Function.update_noteq hdc] at hd
        exact hready d hd n
  | create c hc hhold =>
    have hnoact := hready c hc
    refine ⟨?_, ?_, ?_⟩
    · intro i j hi hj
      try dsimp only at hi hj ⊢
      by_cases hin : i = s.nextStream <;> by_cases hjn : j = s.nextStream
      · rw [hin, hjn]
      · rw [Function.update_noteq hjn] at hj
        rw [hnoact j] at hj
        exact absurd hj (by simp)
      · rw [Function.update_noteq hin] at hi
        rw [hnoact i] at hi
        exact absurd hi (by simp)
      · rw [Function.update_noteq hin] at hi
        rw [hnoact i] at hi
        exact absurd hi (by simp)
    · intro d hd
      try dsimp only at hd ⊢
      by_cases hdc : d = c
      · subst hdc; exact hhold
      · rw [Function.update_noteq hdc] at hd
        exact hcrit d hd
    · intro d hd
      try dsimp only at hd ⊢
      by_cases hdc : d = c
      · subst hdc
        rw [Function.update_same] at hd
        exact absurd hd (by simp)
      · rw [Function.update_noteq hdc] at hd
        have := hcrit d (by rw [hd]; rfl)
        rw [hhold] at this
        have hdc2 : d = c := (Option.some.inj this).symm
        exact absurd hdc2 hdc
  | release c hc hhold =>
    refine ⟨hone, ?_, ?_⟩
    · intro d hd
      try dsimp only at hd ⊢
      by_cases hdc : d = c
      · subst hdc
        rw [Function.update_same] at hd
        simp [CallPc.inCritical] at hd
      · rw [Function.update_noteq hdc] at hd
        have := hcrit d hd
        rw [hhold] at this
        have hdc2 : d = c := (Option.some.inj this).symm
        exact absurd hdc2 hdc
    · intro d hd n
      try dsimp only at hd ⊢
      by_cases hdc : d = c
      · subst hdc
        rw [Function.update_same] at hd
        exact absurd hd (by simp)
      · rw [Function.update_noteq hdc] at hd
        have := hcrit d (by rw [hd]; rfl)
        rw [hhold] at this
        have hdc2 : d = c := (Option.some.inj this).symm
        exact absurd hdc2 hdc
  | beginStreaming n hn =>
    exact inv_lifecycle hone hcrit hready n _
      (fun _ => by simp [hn, StreamState.isActive])
      (Or.inl (by simp [hn, StreamState.isActive]))
  | finishStreaming n hn =>
    exact inv_lifecycle hone hcrit hready n _
      (fun _ => by simp [hn, StreamState.isActive])
      (Or.inl (by simp [hn, StreamState.isActive]))
  | finalizeDone n hn =>
    exact inv_lifecycle hone hcrit hready n _
      (by intro h; simp [StreamState.isActive] at h)
      (Or.inr (by simp [StreamState.isActive]))
  | interrupt n hn =>
    refine inv_lifecycle hone hcrit hready n _
      (fun _ => ?_) (Or.inl ?_) <;>
      rcases hn with h | h <;> simp [h, StreamState.isActive]
  | abortDone n hn =>
    exact inv_lifecycle hone hcrit hready n _
      (by intro h; simp [StreamState.isActive] at h)
      (Or.inr (by simp [StreamState.isActive]))
  | errorOut n hn =>
    exact inv_lifecycle hone hcrit hready n _
      (by intro h; simp [StreamState.isActive] at h)
      (Or.inr (by simp [StreamState.isActive]))
  | errorSettled n hn =>
    exact inv_lifecycle hone hcrit hready n _
      (by intro h; simp [StreamState.isActive] at h)
      (Or.inr (by simp [StreamState.isActive]))

lemma inv_reachable {s : ManagerState} (h : Reachable s) : Inv s := by
  induction h with
  | refl => exact inv_init
  | tail _ hstep ih => exact inv_step ih hstep

/-- **C2.** In the spec-modelled Stream Manager, every reachable state has
at most one stream in a non-idle state (`Starting`, `Streaming`,
`Finalizing`, `Aborting`) per workspace, and the per-workspace mutex
serializes `startStream`: at most one invocation is inside the
mutex-protected critical section at any instant (so concurrent calls never
interleave), and a new stream is created only after any previously active
stream has been aborted and finalized (`safetyDone` requires no active
stream). -/
theorem at_most_one_active_stream (s : ManagerState) (h : Reachable s) :
    (∀ n m, (s.streamSt n).isActive = true → (s.streamSt m).isActive = true →
      n = m) ∧
    (∀ c d, (s.callPc c).inCritical = true → (s.callPc d).inCritical = true →
      c = d) := by
  obtain ⟨hone, hcrit, _⟩ := inv_reachable h
  refine ⟨hone, ?_⟩
  intro c d hc hd
  have h1 := hcrit c hc
  have h2 := hcrit d hd
  rw [h1] at h2
  exact Option.some.inj h2

/-- State after `startStream` call 0 has been invoked. -/
def mgrS1 : ManagerState :=
  { initManager with callPc := Function.update initManager.callPc 0 .entry }

/-- State after call 0 acquired the workspace mutex. -/
def mgrS2 : ManagerState :=
  { mgrS1 with
    holder := some 0
    callPc := Function.update mgrS1.callPc 0 .acquired }

/-- State after stream safety was ensured (no active stream). -/
def mgrS3 : ManagerState :=
  { mgrS2 with callPc := Function.update mgrS2.callPc 0 .ready }

/-- State after call 0 created stream 0. -/
def mgrS4 : ManagerState :=
  { mgrS3 with
    callPc := Function.update mgrS3.callPc 0 .created
    streamSt := Function.update mgrS3.streamSt 0 .starting
    nextStream := mgrS3.nextStream + 1 }

lemma mgrS4_reachable : Reachable mgrS4 := by
  have h1 : Step initManager mgrS1 := Step.invoke initManager 0 rfl
  have h2 : Step mgrS1 mgrS2 := Step.acquire mgrS1 0 rfl rfl
  have h3 : Step mgrS2 mgrS3 := Step.safetyDone mgrS2 0 rfl rfl (fun _ => rfl)
  have h4 : Step mgrS3 mgrS4 := Step.create mgrS3 0 rfl rfl
  exact Relation.ReflTransGen.tail
    (Relation.ReflTransGen.tail
      (Relation.ReflTransGen.tail
        (Relation.ReflTransGen.tail Relation.ReflTransGen.refl h1) h2) h3) h4

/-- Closed instance of `at_most_one_active_stream` at the reachable state in
which call 0 holds the mutex and stream 0 is `Starting`. -/
theorem at_most_one_active_stream_witness :
    Reachable mgrS4 ∧
    (∀ n m, (mgrS4.streamSt n).isActive = true →
      (mgrS4.streamSt m).isActive = true → n = m) :=
  ⟨mgrS4_reachable, (at_most_one_active_stream mgrS4 mgrS4_reachable).1⟩

end Mux
